import Mathlib

/-!
A shallow embedding of `main.go` of the httpclient repository.

The program is a command-line harness with three flag-gated paths: download a
CA certificate through a proxy (`-getca`), fetch a brewery list through the
proxy (`-getbrews`), and call a mutual-TLS endpoint (`-gettrash`).

Everything the program observes from outside (files, HTTP exchanges, the
X.509 and JSON libraries) is supplied by a `World`.  Every function of
`main.go` becomes a computation over an explicit state holding the file
system; a computation yields the events it produced and either returns or
ends the process with an exit status (`log.Fatal` gives 1, a run-time panic
gives 2).
-/

namespace HttpClient

/-! ## Data model -/

/-- Text of a Go `error`, as produced by `err.Error()`. -/
abbrev Err := String

/-- Byte sequences: file contents, response bodies and Go strings read off the wire. -/
abbrev Bytes := List UInt8

/-- Instants of `time.Time`, counted from the zero time. -/
abbrev Time := Int

/-- Values a JSON decoder stores into a Go `interface{}` field. -/
inductive Iface where
  | null
  | bool (b : Bool)
  | number (text : Bytes)
  | str (s : Bytes)
  | composite (raw : Bytes)
  deriving DecidableEq, Repr

/-- The `Brewery` struct of `main.go`, field for field. -/
structure Brewery where
  ID : Bytes := []
  Name : Bytes := []
  BreweryType : Bytes := []
  Street : Bytes := []
  Address2 : Iface := Iface.null
  Address3 : Iface := Iface.null
  City : Bytes := []
  State : Bytes := []
  CountyProvince : Iface := Iface.null
  PostalCode : Bytes := []
  Country : Bytes := []
  Longitude : Bytes := []
  Latitude : Bytes := []
  Phone : Bytes := []
  WebsiteURL : Bytes := []
  UpdatedAt : Time := 0
  CreatedAt : Time := 0
  deriving DecidableEq, Repr

/-- The command-line flags, with the package-level variables they are parsed into. -/
structure Flags where
  useProxy : Bool := false
  getCA : Bool := false
  getBrews : Bool := false
  getTrashCan : Bool := false
  mtlsFalse : Bool := false
  mtlsClientCert : String := "client.pem"
  mtlsClientKey : String := "client-key.pem"
  deriving DecidableEq, Repr

def proxyUrl : String := "http://proxify:8888"
def brewsUrl : String := "https://api.openbrewerydb.org/breweries"
def mtlsUrl : String := "https://trashcan.undeadops.xyz/hello"
def caUrl : String := "http://proxify/cacert.crt"
def ipUrl : String := "http://ifconfig.me/ip"
def rootCAFile : String := "rootCA.crt"

/-! ## The HTTP and TLS client configuration -/

/-- A `tls.Certificate` as loaded from a PEM certificate and a PEM key. -/
structure Certificate where
  certPEM : Bytes
  keyPEM : Bytes
  deriving DecidableEq, Repr

/-- An `x509.CertPool`, as the list of PEM blocks appended to it. -/
structure CertPool where
  pems : List Bytes
  deriving DecidableEq, Repr

/-- The fields of `tls.Config` the program sets; `RootCAs = none` is the nil pool. -/
structure TLSConfig where
  RootCAs : Option CertPool := none
  Certificates : List Certificate := []
  InsecureSkipVerify : Bool := false
  deriving DecidableEq, Repr

/-- The fields of `http.Transport` the program sets.  `Proxy = some u` is
`http.ProxyURL(u)`; `Proxy = none` is the nil proxy function (direct connection). -/
structure Transport where
  TLSClientConfig : Option TLSConfig := none
  Proxy : Option String := none
  deriving DecidableEq, Repr

/-- An `http.Client`; `Transport = none` is the zero client `&http.Client{}`. -/
structure Client where
  Transport : Option Transport := none
  deriving DecidableEq, Repr

/-- An `http.Request` as built by `http.NewRequest` and `Header.Set`. -/
structure Request where
  method : String
  url : String
  header : List (String × String) := []
  deriving DecidableEq, Repr

/-- An `http.Response`: the status code and what reading `Body` delivers, the
bytes `body` followed by end of file (`bodyErr = none`) or by a read error. -/
structure Response where
  StatusCode : Nat
  body : Bytes
  bodyErr : Option Err := none
  deriving DecidableEq, Repr

/-- The pair `(resp, err)` returned by `client.Get` and `client.Do`.  With a nil
error the response is present; with an error it is nil, except after a failed
redirect check, where the library hands back the last response as well. -/
inductive HTTPResult where
  | ok (r : Response)
  | fail (e : Err) (r : Option Response)
  deriving DecidableEq, Repr

def HTTPResult.resp : HTTPResult → Option Response
  | .ok r => some r
  | .fail _ r => r

def HTTPResult.err : HTTPResult → Option Err
  | .ok _ => none
  | .fail e _ => some e

/-- The pair returned by `os.ReadFile`. -/
inductive ReadResult where
  | ok (data : Bytes)
  | fail (e : Err)
  deriving DecidableEq, Repr

/-! ## The environment -/

/-- Everything outside the program.  The two library decoders `tls.X509KeyPair`
and `json.Unmarshal` are part of the environment: the program only calls them. -/
structure World where
  /-- The file system when the process starts, as `os.ReadFile` sees it. -/
  files : String → ReadResult
  /-- The error of `os.Create` on a path, `none` when the file is created. -/
  createErr : String → Option Err
  /-- How many bytes a freshly created file accepts before a write fails; `none` is no limit. -/
  writeCap : Option Nat
  /-- The outcome of `client.Get url`. -/
  httpGet : Client → String → HTTPResult
  /-- The outcome of `client.Do req`. -/
  httpDo : Client → Request → HTTPResult
  /-- The error of `tls.X509KeyPair` on a certificate and key, `none` when they parse and match. -/
  x509KeyPair : Bytes → Bytes → Option Err
  /-- The value `json.Unmarshal` leaves in an empty `[]Brewery`, with the error it returns. -/
  jsonUnmarshal : Bytes → List Brewery × Option Err

/-- Observable events of a run, in the order they happen. -/
inductive Event where
  | stdout (s : String)
  | stdoutBytes (b : Bytes)
  | stdoutBrews (b : List Brewery)
  | logFatal (msg : Err)
  | panicNil
  | readFile (path : String) (r : ReadResult)
  | create (path : String) (e : Option Err)
  | httpGet (c : Client) (url : String) (r : HTTPResult)
  | httpDo (c : Client) (req : Request) (r : HTTPResult)
  | loadKeyPair (certFile keyFile : String) (e : Option Err)
  deriving DecidableEq, Repr

/-- The file system, as `os.ReadFile` sees it. -/
abbrev Files := String → ReadResult

/-- How a computation ends: it returns a value, or the process exits with a
status.  Either way it leaves a file system and the events it produced. -/
inductive Result (α : Type) where
  | ret (a : α) (fs : Files) (tr : List Event)
  | exit (code : Nat) (fs : Files) (tr : List Event)

def Result.files {α : Type} : Result α → Files
  | .ret _ fs _ => fs
  | .exit _ fs _ => fs

def Result.trace {α : Type} : Result α → List Event
  | .ret _ _ tr => tr
  | .exit _ _ tr => tr

/-- The exit status when the process is gone, `none` while it is still running. -/
def Result.exitCode {α : Type} : Result α → Option Nat
  | .ret _ _ _ => none
  | .exit c _ _ => some c

/-- The value returned, when the computation returns. -/
def Result.value {α : Type} : Result α → Option α
  | .ret a _ _ => some a
  | .exit _ _ _ => none

/-- Computations of the program: from the current file system to a result. -/
def M (α : Type) : Type := Files → Result α

def M.pure {α : Type} (a : α) : M α := fun fs => .ret a fs []

def M.bind {α β : Type} (m : M α) (f : α → M β) : M β := fun fs =>
  match m fs with
  | .ret a fs1 t1 =>
    match f a fs1 with
    | .ret b fs2 t2 => .ret b fs2 (t1 ++ t2)
    | .exit c fs2 t2 => .exit c fs2 (t1 ++ t2)
  | .exit c fs1 t1 => .exit c fs1 t1

instance : Monad M where
  pure := M.pure
  bind := M.bind

def emit (e : Event) : M Unit := fun fs => .ret () fs [e]

/-- The calls `fmt.Printf` and `fmt.Println` on text. -/
def printf (text : String) : M Unit := emit (.stdout text)

/-- The call `log.Fatal`: the message is logged and the process exits with status 1. -/
def logFatal {α : Type} (msg : Err) : M α := fun fs => .exit 1 fs [.logFatal msg]

/-- A nil pointer dereference: the run-time panics and the process exits with status 2. -/
def panicNil {α : Type} : M α := fun fs => .exit 2 fs [.panicNil]

/-- The call `os.ReadFile`. -/
def readFile (path : String) : M ReadResult := fun fs =>
  .ret (fs path) fs [.readFile path (fs path)]

/-- The call `os.Create`: on success the file exists and is empty, and the handle
(here the path) is returned; on failure the handle is nil. -/
def osCreate (w : World) (path : String) : M (Option String × Option Err) := fun fs =>
  match w.createErr path with
  | some e => .ret (none, some e) fs [.create path (some e)]
  | none =>
    .ret (some path, none) (fun p => if p = path then .ok [] else fs p) [.create path none]

/-- What reaches the file when `data` is written to it. -/
def written (w : World) (data : Bytes) : Bytes :=
  match w.writeCap with
  | none => data
  | some cap => data.take cap

/-- The call `io.Copy(out, resp.Body)`.  A nil `*os.File` rejects the copy at
once.  Otherwise the bytes of the body are written until a write fails; the
error returned is the write error, else the read error of the body. -/
def ioCopy (w : World) (out : Option String) (resp : Response) : M (Option Err) := fun fs =>
  match out with
  | none => .ret (some "invalid argument") fs []
  | some path =>
    let stored := written w resp.body
    let fs1 : Files := fun p => if p = path then .ok stored else fs p
    if stored.length < resp.body.length then .ret (some "short write") fs1 []
    else .ret resp.bodyErr fs1 []

/-- The call `io.ReadAll(resp.Body)`: the bytes read, and the error that stopped the read. -/
def readAll (resp : Response) : Bytes × Option Err := (resp.body, resp.bodyErr)

def clientGet (w : World) (c : Client) (url : String) : M HTTPResult := fun fs =>
  .ret (w.httpGet c url) fs [.httpGet c url (w.httpGet c url)]

def clientDo (w : World) (c : Client) (req : Request) : M HTTPResult := fun fs =>
  .ret (w.httpDo c req) fs [.httpDo c req (w.httpDo c req)]

/-- The call `tls.LoadX509KeyPair`: both files are read, then the pair is parsed. -/
def loadX509KeyPairFiles (w : World) (certFile keyFile : String) :
    M (Except Err Certificate) := do
  match (← readFile certFile) with
  | .fail e => return .error e
  | .ok certPEM =>
    match (← readFile keyFile) with
    | .fail e => return .error e
    | .ok keyPEM =>
      match w.x509KeyPair certPEM keyPEM with
      | some e => return .error e
      | none => return .ok { certPEM := certPEM, keyPEM := keyPEM }

/-- The call `tls.LoadX509KeyPair`, with its outcome recorded. -/
def loadX509KeyPair (w : World) (certFile keyFile : String) : M (Except Err Certificate) := do
  let r ← loadX509KeyPairFiles w certFile keyFile
  match r with
  | .error e => emit (.loadKeyPair certFile keyFile (some e))
  | .ok _ => emit (.loadKeyPair certFile keyFile none)
  return r

/-! ## The functions of `main.go` -/

/-- The client returned by `setupHTTPClient` once `rootCA.crt` has been read. -/
def caClient (caCert : Bytes) : Client :=
  let caCertPool : CertPool := { pems := [caCert] }
  let tlsConfig : TLSConfig := { RootCAs := some caCertPool }
  let transport : Transport := { TLSClientConfig := some tlsConfig, Proxy := some proxyUrl }
  { Transport := some transport }

/-- The function `setupHTTPClient`: a client through the proxy that trusts `rootCA.crt`. -/
def setupHTTPClient : M Client := do
  match (← readFile rootCAFile) with
  | .fail e => logFatal e
  | .ok caCert => return caClient caCert

/-- The function `setupHTTPTransport`: a client through the proxy, default TLS settings. -/
def setupHTTPTransport : Client :=
  let transport : Transport := { Proxy := some proxyUrl }
  { Transport := some transport }

/-- The function `getMyIP`. -/
def getMyIP (w : World) (c : Client) : M Unit := do
  match (← clientGet w c ipUrl) with
  | .fail e _ => logFatal e
  | .ok resp =>
    if resp.StatusCode = 200 then
      match readAll resp with
      | (_, some e) => logFatal e
      | (bodyBytes, none) => emit (.stdoutBytes (bodyBytes ++ [10]))
    else
      return ()

/-- The URL built by `fmt.Sprintf("%s?by_city=%s&per_page=5", brewsUrl, city)`. -/
def brewurl (city : String) : String :=
  brewsUrl ++ "?by_city=" ++ city ++ "&per_page=5"

/-- The function `GetBrews`, returning the pair `([]Brewery, error)`. -/
def GetBrews (w : World) (city : String) : M (List Brewery × Option Err) := do
  printf (brewurl city ++ "\n")
  let client ← setupHTTPClient
  getMyIP w client
  match (← clientGet w client (brewurl city)) with
  | .fail e _ => return ([], some e)
  | .ok response =>
    match readAll response with
    | (_, some e) => return ([], some e)
    | (responseData, none) =>
      let responseObject := (w.jsonUnmarshal responseData).1
      return (responseObject, none)

/-- The second half of the block `if getCA`: create `rootCA.crt` and copy the
body of the response into it.  A failed `os.Create` is printed and leaves a nil
file, which `io.Copy` then rejects; the error of `io.Copy` is dropped. -/
def storeCA (w : World) (resp : Response) : M Unit := do
  let (out, err) ← osCreate w rootCAFile
  match err with
  | some e => printf ("error writing rootca.crt - " ++ e ++ "\n")
  | none => pure ()
  let _ ← ioCopy w out resp
  return ()

/-- The block `if getCA` of `main`.  The statement `defer resp.Body.Close()`
evaluates `resp.Body` on the spot, whether or not the request failed: with a
nil `resp` that is a nil pointer dereference. -/
def getCAPath (w : World) : M Unit := do
  let client := setupHTTPTransport
  let r ← clientGet w client caUrl
  match r.err with
  | some e => printf ("Error fetching caCert pem, " ++ e)
  | none => pure ()
  match r.resp with
  | none => panicNil
  | some resp => storeCA w resp

/-- The block `if getBrews` of `main`. -/
def getBrewsPath (w : World) : M Unit := do
  let (b, err) ← GetBrews w "san_diego"
  match err with
  | some e => printf ("Error Getting San Diego, " ++ e)
  | none => pure ()
  emit (.stdoutBrews b)

/-- The request of the mTLS path: `http.NewRequest("GET", mtlsUrl, nil)` followed by
`req.Header.Set("User-Agent", "httpproxy/1.0")`.  The method and the URL are
constants that `NewRequest` accepts, so its error branch is never taken. -/
def mtlsRequest : Request :=
  { method := "GET", url := mtlsUrl, header := [("User-Agent", "httpproxy/1.0")] }

/-- The client of the mTLS path when `-useproxy` is set. -/
def proxiedTrashClient (caCert : Bytes) (cert : Certificate) : Client :=
  let caCertPool : CertPool := { pems := [caCert] }
  let tlsConfig : TLSConfig :=
    { RootCAs := some caCertPool, Certificates := [cert], InsecureSkipVerify := true }
  let transport : Transport := { TLSClientConfig := some tlsConfig, Proxy := some proxyUrl }
  { Transport := some transport }

/-- The client of the mTLS path when `-useproxy` is not set. -/
def directTrashClient (cert : Certificate) : Client :=
  let tlsConfig : TLSConfig := { Certificates := [cert], InsecureSkipVerify := true }
  let transport : Transport := { TLSClientConfig := some tlsConfig }
  { Transport := some transport }

/-- The client construction of the block `if getTrashCan`: the `if useProxy`
statement with its two branches, each of which replaces the zero client that
`client` starts as. -/
def trashClient (f : Flags) (cert : Certificate) : M Client := do
  if f.useProxy then
    printf ("Connecting to Trashcan using proxy: " ++ proxyUrl ++ "\n")
    match (← readFile rootCAFile) with
    | .fail e => logFatal e
    | .ok caCert => return proxiedTrashClient caCert cert
  else
    printf "Connecting to Trashcan without Proxy\n"
    return directTrashClient cert

/-- The request of the block `if getTrashCan`: send it, read the body, print it. -/
def trashSend (w : World) (client : Client) : M Unit := do
  match (← clientDo w client mtlsRequest) with
  | .fail e _ => logFatal e
  | .ok r =>
    match readAll r with
    | (_, some e) => logFatal e
    | (body, none) => emit (.stdoutBytes (body ++ [10]))

/-- The block `if getTrashCan` of `main`. -/
def getTrashPath (w : World) (f : Flags) : M Unit := do
  match (← loadX509KeyPair w f.mtlsClientCert f.mtlsClientKey) with
  | .error e => logFatal e
  | .ok cert =>
    let client ← trashClient f cert
    trashSend w client

/-- Run a block when its flag is set. -/
def whenFlag (b : Bool) (m : M Unit) : M Unit := if b then m else pure ()

/-- The function `main` up to the end of the `if getCA` block. -/
def mainAfterCA (w : World) (f : Flags) : M Unit :=
  whenFlag f.getCA (getCAPath w)

/-- The function `main` up to the end of the `if getBrews` block. -/
def mainAfterBrews (w : World) (f : Flags) : M Unit := do
  mainAfterCA w f
  whenFlag f.getBrews (getBrewsPath w)

/-- The function `main` after `flag.Parse()`.  The deferred `Close` calls run when
`main` returns; they change neither the files nor the output and are left out. -/
def main (w : World) (f : Flags) : M Unit := do
  mainAfterBrews w f
  whenFlag f.getTrashCan (getTrashPath w f)

/-- A run of the program: `main` from the file system the process starts with. -/
def run (w : World) (f : Flags) : Result Unit := main w f w.files

/-- The exit status of the process: 0 when `main` returns. -/
def exitStatus {α : Type} (r : Result α) : Nat := (r.exitCode).getD 0

/-! ## A reference decoder for the brewery JSON

`json.Unmarshal` belongs to the Go standard library, so `GetBrews` takes it from
the `World`.  Concrete worlds use the decoder below.  It covers ASCII input made
of one array of objects whose members carry strings or `null`, decides a
malformed first byte as a syntax error, and declares everything else out of
its range. -/

/-- The bytes of an ASCII text. -/
def ascii (text : String) : Bytes := text.data.map fun c => c.toNat.toUInt8

/-- Tokens of the JSON subset. -/
inductive Tok where
  | lbrack | rbrack | lbrace | rbrace | colon | comma
  | str (s : Bytes)
  | null
  deriving DecidableEq, Repr

/-- Scanner states: between tokens, inside a string, inside a bare word. -/
inductive LexState where
  | idle
  | inStr (acc : Bytes)
  | inWord (acc : Bytes)
  deriving DecidableEq, Repr

def isSpace (b : UInt8) : Bool := b = 32 || b = 9 || b = 10 || b = 13

def isLower (b : UInt8) : Bool := 97 ≤ b && b ≤ 122

/-- One byte read between tokens. -/
def lexIdle (toks : List Tok) (b : UInt8) : Option (LexState × List Tok) :=
  if isSpace b then some (.idle, toks)
  else if b = 91 then some (.idle, toks ++ [.lbrack])
  else if b = 93 then some (.idle, toks ++ [.rbrack])
  else if b = 123 then some (.idle, toks ++ [.lbrace])
  else if b = 125 then some (.idle, toks ++ [.rbrace])
  else if b = 58 then some (.idle, toks ++ [.colon])
  else if b = 44 then some (.idle, toks ++ [.comma])
  else if b = 34 then some (.inStr [], toks)
  else if isLower b then some (.inWord [b], toks)
  else none

/-- One byte of input.  Strings hold printable ASCII without the backslash. -/
def lexStep (st : Option (LexState × List Tok)) (b : UInt8) : Option (LexState × List Tok) :=
  match st with
  | none => none
  | some (.idle, toks) => lexIdle toks b
  | some (.inStr acc, toks) =>
    if b = 34 then some (.idle, toks ++ [.str acc])
    else if b = 92 || b < 32 || 127 ≤ b then none
    else some (.inStr (acc ++ [b]), toks)
  | some (.inWord acc, toks) =>
    if isLower b then some (.inWord (acc ++ [b]), toks)
    else if acc = ascii "null" then lexIdle (toks ++ [.null]) b
    else none

/-- The tokens of an input, when it lies in the subset. -/
def lex (input : Bytes) : Option (List Tok) :=
  match input.foldl lexStep (some (.idle, [])) with
  | some (.idle, toks) => some toks
  | some (.inWord acc, toks) => if acc = ascii "null" then some (toks ++ [.null]) else none
  | _ => none

/-- ASCII lower-casing, the case folding that matches a member name to a field tag. -/
def foldKey (key : Bytes) : Bytes :=
  key.map fun b => if 65 ≤ b && b ≤ 90 then b + 32 else b

/-- Store a member into the struct: a string sets a string field, `null` leaves
it alone; an `interface{}` field takes either; an unknown name is skipped.  A
string aimed at a `time.Time` field is outside the subset. -/
def setField (b : Brewery) (key : Bytes) (v : Option Bytes) : Option Brewery :=
  let k := foldKey key
  let iface : Iface := match v with
    | some s => .str s
    | none => .null
  if k = ascii "id" then some { b with ID := v.getD b.ID }
  else if k = ascii "name" then some { b with Name := v.getD b.Name }
  else if k = ascii "brewery_type" then some { b with BreweryType := v.getD b.BreweryType }
  else if k = ascii "street" then some { b with Street := v.getD b.Street }
  else if k = ascii "address_2" then some { b with Address2 := iface }
  else if k = ascii "address_3" then some { b with Address3 := iface }
  else if k = ascii "city" then some { b with City := v.getD b.City }
  else if k = ascii "state" then some { b with State := v.getD b.State }
  else if k = ascii "county_province" then some { b with CountyProvince := iface }
  else if k = ascii "postal_code" then some { b with PostalCode := v.getD b.PostalCode }
  else if k = ascii "country" then some { b with Country := v.getD b.Country }
  else if k = ascii "longitude" then some { b with Longitude := v.getD b.Longitude }
  else if k = ascii "latitude" then some { b with Latitude := v.getD b.Latitude }
  else if k = ascii "phone" then some { b with Phone := v.getD b.Phone }
  else if k = ascii "website_url" then some { b with WebsiteURL := v.getD b.WebsiteURL }
  else if k = ascii "updated_at" || k = ascii "created_at" then
    match v with
    | none => some b
    | some _ => none
  else some b

/-- Parser states while walking the tokens of `[ {..}, {..} ]`. -/
inductive ParseState where
  | start
  | arrOpen
  | arrElem (acc : List Brewery)
  | arrComma (acc : List Brewery)
  | objOpen (acc : List Brewery) (cur : Brewery)
  | objKey (acc : List Brewery) (cur : Brewery) (key : Bytes)
  | objVal (acc : List Brewery) (cur : Brewery) (key : Bytes)
  | objMember (acc : List Brewery) (cur : Brewery)
  | objComma (acc : List Brewery) (cur : Brewery)
  | done (acc : List Brewery)
  deriving DecidableEq, Repr

def parseStep (st : Option ParseState) (t : Tok) : Option ParseState :=
  match st, t with
  | some .start, .lbrack => some .arrOpen
  | some .arrOpen, .rbrack => some (.done [])
  | some .arrOpen, .lbrace => some (.objOpen [] {})
  | some (.arrElem acc), .comma => some (.arrComma acc)
  | some (.arrElem acc), .rbrack => some (.done acc)
  | some (.arrComma acc), .lbrace => some (.objOpen acc {})
  | some (.objOpen acc cur), .rbrace => some (.arrElem (acc ++ [cur]))
  | some (.objOpen acc cur), .str k => some (.objKey acc cur k)
  | some (.objKey acc cur k), .colon => some (.objVal acc cur k)
  | some (.objVal acc cur k), .str v => (setField cur k (some v)).map (.objMember acc)
  | some (.objVal acc cur k), .null => (setField cur k none).map (.objMember acc)
  | some (.objMember acc cur), .comma => some (.objComma acc cur)
  | some (.objMember acc cur), .rbrace => some (.arrElem (acc ++ [cur]))
  | some (.objComma acc cur), .str k => some (.objKey acc cur k)
  | _, _ => none

/-- What the reference decoder says about an input. -/
inductive Decoded where
  | value (l : List Brewery)
  | syntaxError (e : Err)
  | outOfRange
  deriving DecidableEq, Repr

/-- Can this byte begin a JSON value (after leading blanks)? -/
def startsValue (b : UInt8) : Bool :=
  b = 91 || b = 123 || b = 34 || b = 45 || (48 ≤ b && b ≤ 57) || b = 116 || b = 102 || b = 110

/-- The reference decoder for `json.Unmarshal(data, &responseObject)` with
`responseObject` an empty `[]Brewery`. -/
def decodeBreweries (data : Bytes) : Decoded :=
  match data.dropWhile isSpace with
  | [] => .syntaxError "unexpected end of JSON input"
  | b :: _ =>
    if startsValue b then
      match (lex data).bind fun toks => toks.foldl parseStep (some .start) with
      | some (.done l) => .value l
      | _ => .outOfRange
    else .syntaxError "invalid character looking for beginning of value"

/-- The decoder as a `World` component; a syntax error leaves the slice empty. -/
def refUnmarshal (data : Bytes) : List Brewery × Option Err :=
  match decodeBreweries data with
  | .value l => (l, none)
  | .syntaxError e => ([], some e)
  | .outOfRange => ([], some "input outside the reference decoder")

/-! ## Auxiliary definitions for the proofs -/

/-- The pair `GetBrews` returns once the client is built and the IP echo is over. -/
def brewsReply (w : World) (c : Client) (city : String) : List Brewery × Option Err :=
  match w.httpGet c (brewurl city) with
  | .fail e _ => ([], some e)
  | .ok response =>
    match response.bodyErr with
    | some e => ([], some e)
    | none => ((w.jsonUnmarshal response.body).1, none)

/-! ## Concrete worlds -/

/-- A world given by its file system and the outcome of each request of the program. -/
def sampleWorld (files : Files) (caGet ipGet brewGet mtlsDo : HTTPResult) : World where
  files := files
  createErr := fun _ => none
  writeCap := none
  httpGet := fun _ url => if url = caUrl then caGet else if url = ipUrl then ipGet else brewGet
  httpDo := fun _ _ => mtlsDo
  x509KeyPair := fun _ _ => none
  jsonUnmarshal := refUnmarshal

/-- A file system that holds `rootCA.crt` and the default client certificate and key. -/
def sampleFiles : Files := fun p =>
  if p = rootCAFile then .ok [45, 45]
  else if p = "client.pem" then .ok [67]
  else if p = "client-key.pem" then .ok [75]
  else .fail "no such file or directory"

/-- A file system without any file. -/
def noFiles : Files := fun _ => .fail "no such file or directory"

/-- An unreachable server. -/
def refused : HTTPResult := .fail "connection refused" none

/-- A reply `200 OK` with the given body. -/
def okReply (body : Bytes) : HTTPResult := .ok { StatusCode := 200, body := body }

/-- A reply whose body breaks off with a read error. -/
def brokenReply (body : Bytes) : HTTPResult :=
  .ok { StatusCode := 200, body := body, bodyErr := some "unexpected EOF" }

/-- The text of the IP echo reply used in the sample worlds, `10.0.0.1`. -/
def ipText : Bytes := [49, 48, 46, 48, 46, 48, 46, 49]

/-- The events the block `if getCA` can produce. -/
def caEvent : Event → Prop
  | .httpGet _ url _ => url = caUrl
  | .stdout _ => True
  | .panicNil => True
  | .create _ _ => True
  | _ => False

/-- The events the block `if getBrews` can produce. -/
def brewsEvent : Event → Prop
  | .httpGet _ url _ => url = ipUrl ∨ url = brewurl "san_diego"
  | .readFile path _ => path = rootCAFile
  | .stdout _ => True
  | .stdoutBytes _ => True
  | .stdoutBrews _ => True
  | .logFatal _ => True
  | _ => False

/-- The events `tls.LoadX509KeyPair` can produce. -/
def loadEvent : Event → Prop
  | .readFile _ _ => True
  | .loadKeyPair _ _ _ => True
  | _ => False

/-- The events the client construction of the mTLS path can produce. -/
def clientEvent : Event → Prop
  | .stdout _ => True
  | .readFile _ _ => True
  | .logFatal _ => True
  | _ => False

/-- The events the request of the mTLS path can produce with client `c`. -/
def sendEvent (c : Client) : Event → Prop
  | .httpDo c2 req _ => c2 = c ∧ req = mtlsRequest
  | .logFatal _ => True
  | .stdoutBytes _ => True
  | _ => False

/-! ## Laws of the computation type -/

theorem bind_apply {α β : Type} (m : M α) (f : α → M β) (fs : Files) :
    (m >>= f) fs = M.bind m f fs := rfl

theorem pure_apply {α : Type} (a : α) (fs : Files) :
    (pure a : M α) fs = .ret a fs [] := rfl

theorem bind_of_ret {α β : Type} (m : M α) (f : α → M β) (fs fs1 : Files) (a : α)
    (t1 : List Event) (h : m fs = .ret a fs1 t1) :
    M.bind m f fs =
      match f a fs1 with
      | .ret b fs2 t2 => .ret b fs2 (t1 ++ t2)
      | .exit c fs2 t2 => .exit c fs2 (t1 ++ t2) := by
  simp [M.bind, h]

theorem bind_of_exit {α β : Type} (m : M α) (f : α → M β) (fs fs1 : Files) (c : Nat)
    (t1 : List Event) (h : m fs = .exit c fs1 t1) :
    M.bind m f fs = .exit c fs1 t1 := by
  simp [M.bind, h]

theorem trace_bind_of_ret {α β : Type} (m : M α) (f : α → M β) (fs fs1 : Files) (a : α)
    (t1 : List Event) (h : m fs = .ret a fs1 t1) :
    (M.bind m f fs).trace = t1 ++ (f a fs1).trace := by
  rw [bind_of_ret m f fs fs1 a t1 h]
  cases f a fs1 <;> rfl

theorem exitCode_bind_of_ret {α β : Type} (m : M α) (f : α → M β) (fs fs1 : Files) (a : α)
    (t1 : List Event) (h : m fs = .ret a fs1 t1) :
    (M.bind m f fs).exitCode = (f a fs1).exitCode := by
  rw [bind_of_ret m f fs fs1 a t1 h]
  cases f a fs1 <;> rfl

theorem files_bind_of_ret {α β : Type} (m : M α) (f : α → M β) (fs fs1 : Files) (a : α)
    (t1 : List Event) (h : m fs = .ret a fs1 t1) :
    (M.bind m f fs).files = (f a fs1).files := by
  rw [bind_of_ret m f fs fs1 a t1 h]
  cases f a fs1 <;> rfl

/-- An event of `m >>= f` comes from `m`, or `m` returned and it comes from `f`. -/
theorem mem_trace_bind {α β : Type} (m : M α) (f : α → M β) (fs : Files) (ev : Event) :
    ev ∈ (M.bind m f fs).trace ↔
      ev ∈ (m fs).trace ∨ ∃ a fs1 t1, m fs = .ret a fs1 t1 ∧ ev ∈ (f a fs1).trace := by
  cases h : m fs with
  | ret a fs1 t1 =>
    rw [trace_bind_of_ret m f fs fs1 a t1 h, List.mem_append]
    constructor
    · rintro (h1 | h2)
      · exact Or.inl h1
      · exact Or.inr ⟨a, fs1, t1, rfl, h2⟩
    · rintro (h1 | ⟨a2, fs2, t2, heq, h2⟩)
      · exact Or.inl h1
      · cases heq
        exact Or.inr h2
  | exit c fs1 t1 =>
    rw [bind_of_exit m f fs fs1 c t1 h]
    simp [Result.trace]

/-! ## The functions, case by case -/

theorem brewurl_ne_ipUrl (city : String) : brewurl city ≠ ipUrl := by
  intro h
  have h2 := congrArg String.data h
  simp [brewurl, brewsUrl, ipUrl, String.data_append] at h2

theorem setupHTTPClient_apply (fs : Files) :
    setupHTTPClient fs =
      match fs rootCAFile with
      | .fail e => .exit 1 fs [.readFile rootCAFile (.fail e), .logFatal e]
      | .ok ca => .ret (caClient ca) fs [.readFile rootCAFile (.ok ca)] := by
  simp only [setupHTTPClient, readFile, bind_apply, M.bind]
  cases h : fs rootCAFile <;> rfl

theorem getMyIP_apply (w : World) (c : Client) (fs : Files) :
    getMyIP w c fs =
      match w.httpGet c ipUrl with
      | .fail e r => .exit 1 fs [.httpGet c ipUrl (.fail e r), .logFatal e]
      | .ok resp =>
        if resp.StatusCode = 200 then
          match resp.bodyErr with
          | some e => .exit 1 fs [.httpGet c ipUrl (.ok resp), .logFatal e]
          | none => .ret () fs [.httpGet c ipUrl (.ok resp), .stdoutBytes (resp.body ++ [10])]
        else .ret () fs [.httpGet c ipUrl (.ok resp)] := by
  simp only [getMyIP, clientGet, readAll, bind_apply, M.bind]
  cases h : w.httpGet c ipUrl with
  | fail e r => rfl
  | ok resp =>
    by_cases hs : resp.StatusCode = 200
    · cases hb : resp.bodyErr <;> simp [hs, hb, logFatal, emit]
    · simp [hs, pure_apply]

/-- The events of `getMyIP`: its request, the printed body, the fatal log line. -/
theorem getMyIP_trace (w : World) (c : Client) (fs : Files) (ev : Event)
    (h : ev ∈ (getMyIP w c fs).trace) :
    ev = .httpGet c ipUrl (w.httpGet c ipUrl) ∨ (∃ b, ev = .stdoutBytes b) ∨
      ∃ e, ev = .logFatal e := by
  rw [getMyIP_apply] at h
  cases hip : w.httpGet c ipUrl with
  | fail e r => simp [hip, Result.trace] at h; rcases h with h | h <;> simp [h]
  | ok resp =>
    simp only [hip] at h
    by_cases hs : resp.StatusCode = 200
    · cases hb : resp.bodyErr <;> simp [hs, hb, Result.trace] at h <;>
        rcases h with h | h <;> simp [h]
    · simp [hs, Result.trace] at h
      simp [h]

theorem getMyIP_files (w : World) (c : Client) (fs : Files) :
    (getMyIP w c fs).files = fs := by
  rw [getMyIP_apply]
  cases hip : w.httpGet c ipUrl with
  | fail e r => rfl
  | ok resp =>
    by_cases hs : resp.StatusCode = 200
    · cases hb : resp.bodyErr <;> simp [hs, hb, Result.files]
    · simp [hs, Result.files]

theorem GetBrews_apply (w : World) (city : String) (fs : Files) :
    GetBrews w city fs =
      match fs rootCAFile with
      | .fail e =>
        .exit 1 fs [.stdout (brewurl city ++ "\n"), .readFile rootCAFile (.fail e), .logFatal e]
      | .ok ca =>
        match getMyIP w (caClient ca) fs with
        | .exit code fs1 tr =>
          .exit code fs1 ([.stdout (brewurl city ++ "\n"), .readFile rootCAFile (.ok ca)] ++ tr)
        | .ret _ fs1 tr =>
          .ret (brewsReply w (caClient ca) city) fs1
            ([.stdout (brewurl city ++ "\n"), .readFile rootCAFile (.ok ca)] ++ tr ++
              [.httpGet (caClient ca) (brewurl city) (w.httpGet (caClient ca) (brewurl city))]) := by
  simp only [GetBrews, bind_apply, M.bind, setupHTTPClient_apply, printf, emit,
    clientGet, readAll, brewsReply]
  cases hca : fs rootCAFile with
  | fail e1 => rfl
  | ok ca =>
    simp only []
    cases hip : getMyIP w (caClient ca) fs with
    | exit code fs1 tr => simp
    | ret u fs1 tr =>
      simp only []
      cases hb : w.httpGet (caClient ca) (brewurl city) with
      | fail e3 r3 => simp [pure_apply]
      | ok resp2 =>
        cases hbe : resp2.bodyErr <;> simp [pure_apply, hbe]

/-- A brewery request in the trace of `GetBrews` is the last event of a call
that returned `brewsReply`. -/
theorem GetBrews_of_brew_event (w : World) (city : String) (fs : Files) (c : Client)
    (r : HTTPResult) (h : Event.httpGet c (brewurl city) r ∈ (GetBrews w city fs).trace) :
    r = w.httpGet c (brewurl city) ∧
      ∃ fs1 tr, GetBrews w city fs = .ret (brewsReply w c city) fs1 tr := by
  have hne := brewurl_ne_ipUrl city
  rw [GetBrews_apply] at h ⊢
  cases hca : fs rootCAFile with
  | fail e1 => simp [hca, Result.trace, hne] at h
  | ok ca =>
    simp only [hca] at h ⊢
    have hip := getMyIP_trace w (caClient ca) fs (.httpGet c (brewurl city) r)
    cases hres : getMyIP w (caClient ca) fs with
    | exit code fs1 tr =>
      simp [hres, Result.trace, hne] at h hip
      exact absurd h (by simpa using hip)
    | ret u fs1 tr =>
      simp [hres, Result.trace, hne] at h hip ⊢
      rcases h with h | ⟨h1, h2⟩
      · exact absurd h hip
      · subst h1
        exact ⟨h2, rfl⟩

/-- A call of `GetBrews` that returns has sent the brewery request. -/
theorem GetBrews_of_ret (w : World) (city : String) (fs fs1 : Files)
    (v : List Brewery × Option Err) (tr : List Event)
    (h : GetBrews w city fs = .ret v fs1 tr) :
    ∃ c, Event.httpGet c (brewurl city) (w.httpGet c (brewurl city)) ∈ tr ∧
      v = brewsReply w c city := by
  rw [GetBrews_apply] at h
  cases hca : fs rootCAFile with
  | fail e1 => simp [hca] at h
  | ok ca =>
    simp only [hca] at h
    cases hres : getMyIP w (caClient ca) fs with
    | exit code fs2 tr2 => simp [hres] at h
    | ret u fs2 tr2 =>
      simp [hres] at h
      refine ⟨caClient ca, ?_, h.1.symm⟩
      rw [← h.2.2]
      simp

/-! ## The brewery fetch -/

/-- C9. For every city, when the GET to the brewery URL fails, `GetBrews` returns:
it hands back the error of the request together with an empty list. -/
theorem GetBrews_unreachable (w : World) (city : String) (fs : Files) (c : Client) (e : Err)
    (r : Option Response)
    (h : Event.httpGet c (brewurl city) (.fail e r) ∈ (GetBrews w city fs).trace) :
    (GetBrews w city fs).value = some ([], some e) ∧ (GetBrews w city fs).exitCode = none := by
  obtain ⟨hr, fs1, tr, heq⟩ := GetBrews_of_brew_event w city fs c _ h
  rw [heq]
  simp [Result.value, Result.exitCode, brewsReply, ← hr]

/-- C9 in a world where the brewery server refuses the connection. -/
theorem GetBrews_unreachable_witness :
    Event.httpGet (caClient [45, 45]) (brewurl "san_diego") refused ∈
        (GetBrews (sampleWorld sampleFiles refused (okReply ipText) refused refused)
          "san_diego" sampleFiles).trace ∧
      (GetBrews (sampleWorld sampleFiles refused (okReply ipText) refused refused)
          "san_diego" sampleFiles).value = some ([], some "connection refused") :=
  ⟨by decide,
    (GetBrews_unreachable (sampleWorld sampleFiles refused (okReply ipText) refused refused)
      "san_diego" sampleFiles (caClient [45, 45]) "connection refused" none (by decide)).1⟩

/-- C10. For every city and every response to the brewery request whose body is
read to the end, whatever its status code and bytes, `GetBrews` returns a nil
error with whatever list the decoder left: the decoder's own error is dropped. -/
theorem GetBrews_ignores_decode_error (w : World) (city : String) (fs : Files) (c : Client)
    (resp : Response)
    (h : Event.httpGet c (brewurl city) (.ok resp) ∈ (GetBrews w city fs).trace)
    (hbody : resp.bodyErr = none) :
    (GetBrews w city fs).value = some ((w.jsonUnmarshal resp.body).1, none) := by
  obtain ⟨hr, fs1, tr, heq⟩ := GetBrews_of_brew_event w city fs c _ h
  rw [heq]
  simp [Result.value, brewsReply, ← hr, hbody]

/-- C10 in a world where the brewery server answers 502 with an HTML page, which
the decoder rejects. -/
theorem GetBrews_ignores_decode_error_witness :
    (refUnmarshal (ascii "<html>")).2 =
        some "invalid character looking for beginning of value" ∧
      (GetBrews
          (sampleWorld sampleFiles refused (okReply ipText)
            (.ok { StatusCode := 502, body := ascii "<html>" }) refused)
          "san_diego" sampleFiles).value = some ([], none) :=
  ⟨by decide,
    GetBrews_ignores_decode_error
      (sampleWorld sampleFiles refused (okReply ipText)
        (.ok { StatusCode := 502, body := ascii "<html>" }) refused)
      "san_diego" sampleFiles (caClient [45, 45]) { StatusCode := 502, body := ascii "<html>" }
      (by decide) rfl⟩

/-- C8, as stated, fails: for the body `[{}]` (bytes 91 123 125 93) `GetBrews`
returns without error a list whose single entry has an empty ID and an empty Name. -/
theorem GetBrews_empty_entry :
    (GetBrews
        (sampleWorld sampleFiles refused (okReply ipText) (okReply [91, 123, 125, 93]) refused)
        "san_diego" sampleFiles).value = some ([{}], none) ∧
      ¬ ∀ b ∈ [({} : Brewery)], b.ID ≠ [] ∧ b.Name ≠ [] := by
  constructor
  · decide
  · simp

/-- C8, amended. For every city and every response body, when `GetBrews` returns
without error, the list returned is exactly the list the JSON decoder produced
from the body of the brewery response; so its entries have a non-empty ID and
Name exactly when the decoded entries do. -/
theorem GetBrews_returns_decoded (w : World) (city : String) (fs : Files) (l : List Brewery)
    (h : (GetBrews w city fs).value = some (l, none)) :
    ∃ c resp, Event.httpGet c (brewurl city) (.ok resp) ∈ (GetBrews w city fs).trace ∧
      resp.bodyErr = none ∧ l = (w.jsonUnmarshal resp.body).1 ∧
      ((∀ b ∈ l, b.ID ≠ [] ∧ b.Name ≠ []) ↔
        ∀ b ∈ (w.jsonUnmarshal resp.body).1, b.ID ≠ [] ∧ b.Name ≠ []) := by
  cases hres : GetBrews w city fs with
  | exit code fs1 tr => simp [hres, Result.value] at h
  | ret v fs1 tr =>
    simp only [hres, Result.value, Option.some.injEq] at h
    obtain ⟨c, hmem, hv⟩ := GetBrews_of_ret w city fs fs1 v tr hres
    rw [h] at hv
    unfold brewsReply at hv
    cases hget : w.httpGet c (brewurl city) with
    | fail e r => simp [hget] at hv
    | ok resp =>
      rw [hget] at hmem
      simp only [hget] at hv
      cases hb : resp.bodyErr with
      | some e => simp [hb] at hv
      | none =>
        simp only [hb, Prod.mk.injEq, and_true] at hv
        exact ⟨c, resp, hmem, hb, hv, by rw [hv]⟩

/-- C8, amended, in the world of the counterexample. -/
theorem GetBrews_returns_decoded_witness :
    ∃ c resp,
      Event.httpGet c (brewurl "san_diego") (.ok resp) ∈
        (GetBrews
          (sampleWorld sampleFiles refused (okReply ipText) (okReply [91, 123, 125, 93]) refused)
          "san_diego" sampleFiles).trace ∧
      resp.bodyErr = none ∧ [({} : Brewery)] = (refUnmarshal resp.body).1 ∧
      ((∀ b ∈ [({} : Brewery)], b.ID ≠ [] ∧ b.Name ≠ []) ↔
        ∀ b ∈ (refUnmarshal resp.body).1, b.ID ≠ [] ∧ b.Name ≠ []) :=
  GetBrews_returns_decoded
    (sampleWorld sampleFiles refused (okReply ipText) (okReply [91, 123, 125, 93]) refused)
    "san_diego" sampleFiles [{}] (by decide)

/-! ## The CA download -/

theorem storeCA_apply (w : World) (resp : Response) (fs : Files) :
    storeCA w resp fs =
      match w.createErr rootCAFile with
      | some e =>
        .ret () fs [.create rootCAFile (some e), .stdout ("error writing rootca.crt - " ++ e ++ "\n")]
      | none =>
        .ret () (fun p => if p = rootCAFile then .ok (written w resp.body)
                          else if p = rootCAFile then .ok [] else fs p)
          [.create rootCAFile none] := by
  simp only [storeCA, osCreate, bind_apply, M.bind]
  cases hc : w.createErr rootCAFile with
  | some e => simp [bind_apply, M.bind, pure_apply, ioCopy, printf, emit]
  | none =>
    by_cases hlen : (written w resp.body).length < resp.body.length <;>
      simp [bind_apply, M.bind, pure_apply, ioCopy, hlen]

theorem getCAPath_apply (w : World) (fs : Files) :
    getCAPath w fs =
      match w.httpGet setupHTTPTransport caUrl with
      | .fail e none =>
        .exit 2 fs [.httpGet setupHTTPTransport caUrl (.fail e none),
          .stdout ("Error fetching caCert pem, " ++ e), .panicNil]
      | .fail e (some resp) =>
        match storeCA w resp fs with
        | .ret _ fs1 tr =>
          .ret () fs1 ([.httpGet setupHTTPTransport caUrl (.fail e (some resp)),
            .stdout ("Error fetching caCert pem, " ++ e)] ++ tr)
        | .exit c fs1 tr =>
          .exit c fs1 ([.httpGet setupHTTPTransport caUrl (.fail e (some resp)),
            .stdout ("Error fetching caCert pem, " ++ e)] ++ tr)
      | .ok resp =>
        match storeCA w resp fs with
        | .ret _ fs1 tr => .ret () fs1 ([.httpGet setupHTTPTransport caUrl (.ok resp)] ++ tr)
        | .exit c fs1 tr => .exit c fs1 ([.httpGet setupHTTPTransport caUrl (.ok resp)] ++ tr) := by
  simp only [getCAPath, clientGet, bind_apply, M.bind]
  cases hg : w.httpGet setupHTTPTransport caUrl with
  | fail e r =>
    cases r with
    | none => simp [HTTPResult.err, HTTPResult.resp, bind_apply, M.bind, printf, emit, panicNil]
    | some resp =>
      cases hs : storeCA w resp fs <;>
        simp [HTTPResult.err, HTTPResult.resp, bind_apply, M.bind, printf, emit, hs]
  | ok resp =>
    cases hs : storeCA w resp fs <;>
      simp [HTTPResult.err, HTTPResult.resp, bind_apply, M.bind, pure_apply, hs]

theorem getCAPath_events (w : World) (fs : Files) :
    ∀ ev ∈ (getCAPath w fs).trace, caEvent ev := by
  simp only [getCAPath_apply, storeCA_apply]
  cases hg : w.httpGet setupHTTPTransport caUrl with
  | fail e r =>
    cases r with
    | none => simp [Result.trace, caEvent]
    | some resp => cases hc : w.createErr rootCAFile <;> simp [hc, Result.trace, caEvent]
  | ok resp => cases hc : w.createErr rootCAFile <;> simp [hc, Result.trace, caEvent]

theorem written_of_copy_ok (w : World) (resp : Response)
    (hcopy : ∀ fs, (ioCopy w (some rootCAFile) resp fs).value = some none) :
    written w resp.body = resp.body := by
  have h := hcopy (fun _ => .ok [])
  simp only [ioCopy] at h
  by_cases hlen : (written w resp.body).length < resp.body.length
  · simp [hlen, Result.value] at h
  · unfold written at hlen ⊢
    cases hcap : w.writeCap with
    | none => rfl
    | some cap =>
      simp only [hcap] at hlen ⊢
      apply List.take_of_length_le
      simp only [List.length_take, not_lt] at hlen
      omega

/-- C3, at a failing input: `-getca` and `-gettrash` are set and the GET to the CA
endpoint fails with a nil response.  The error is printed, then the deferred
`resp.Body.Close()` dereferences the nil response: the process ends with
status 2 and the mTLS path is never entered. -/
theorem getca_failure_panics :
    (run (sampleWorld sampleFiles refused refused refused refused)
        { getCA := true, getTrashCan := true }).exitCode = some 2 ∧
      (run (sampleWorld sampleFiles refused refused refused refused)
        { getCA := true, getTrashCan := true }).trace =
        [.httpGet setupHTTPTransport caUrl refused,
         .stdout "Error fetching caCert pem, connection refused",
         .panicNil] := by
  constructor <;> rfl

/-! ## The brewery path inside `main` -/

theorem getBrewsPath_apply (w : World) (fs : Files) :
    getBrewsPath w fs =
      match GetBrews w "san_diego" fs with
      | .exit c fs1 tr => .exit c fs1 tr
      | .ret (b, some e) fs1 tr =>
        .ret () fs1 (tr ++ [.stdout ("Error Getting San Diego, " ++ e), .stdoutBrews b])
      | .ret (b, none) fs1 tr => .ret () fs1 (tr ++ [.stdoutBrews b]) := by
  simp only [getBrewsPath, bind_apply, M.bind]
  cases hg : GetBrews w "san_diego" fs with
  | exit c fs1 tr => rfl
  | ret v fs1 tr =>
    obtain ⟨b, err⟩ := v
    cases err <;> simp [bind_apply, M.bind, pure_apply, printf, emit]

theorem GetBrews_events (w : World) (fs : Files) :
    ∀ ev ∈ (GetBrews w "san_diego" fs).trace, brewsEvent ev := by
  intro ev h
  rw [GetBrews_apply] at h
  cases hca : fs rootCAFile with
  | fail e1 =>
    simp only [hca, Result.trace] at h
    revert ev
    simp [brewsEvent]
  | ok ca =>
    simp only [hca] at h
    have hip := getMyIP_trace w (caClient ca) fs ev
    cases hres : getMyIP w (caClient ca) fs with
    | exit code fs1 tr =>
      simp only [hres, Result.trace, List.mem_append, List.mem_cons, List.mem_singleton,
        List.not_mem_nil, or_false] at h hip
      rcases h with (h | h) | h
      · subst h; simp [brewsEvent]
      · subst h; simp [brewsEvent]
      · rcases hip h with h1 | ⟨b, h1⟩ | ⟨e, h1⟩ <;> subst h1 <;> simp [brewsEvent]
    | ret u fs1 tr =>
      simp only [hres, Result.trace, List.mem_append, List.mem_cons, List.mem_singleton,
        List.not_mem_nil, or_false] at h hip
      rcases h with ((h | h) | h) | h
      · subst h; simp [brewsEvent]
      · subst h; simp [brewsEvent]
      · rcases hip h with h1 | ⟨b, h1⟩ | ⟨e, h1⟩ <;> subst h1 <;> simp [brewsEvent]
      · subst h; simp [brewsEvent]

theorem getBrewsPath_events (w : World) (fs : Files) :
    ∀ ev ∈ (getBrewsPath w fs).trace, brewsEvent ev := by
  intro ev h
  have hg := GetBrews_events w fs ev
  rw [getBrewsPath_apply] at h
  cases hres : GetBrews w "san_diego" fs with
  | exit c fs1 tr =>
    simp only [hres, Result.trace] at h hg
    exact hg h
  | ret v fs1 tr =>
    obtain ⟨b, err⟩ := v
    cases err <;>
      simp only [hres, Result.trace, List.mem_append, List.mem_cons, List.mem_singleton,
        List.not_mem_nil, or_false] at h hg
    · rcases h with h | h
      · exact hg h
      · subst h; simp [brewsEvent]
    · rcases h with h | h | h
      · exact hg h
      · subst h; simp [brewsEvent]
      · subst h; simp [brewsEvent]

/-- The three errors of `GetBrews` that end the process. -/
theorem GetBrews_fatal (w : World) (city : String) (fs : Files) (e : Err)
    (h : Event.readFile rootCAFile (.fail e) ∈ (GetBrews w city fs).trace ∨
      (∃ c r, Event.httpGet c ipUrl (.fail e r) ∈ (GetBrews w city fs).trace) ∨
      ∃ c resp, Event.httpGet c ipUrl (.ok resp) ∈ (GetBrews w city fs).trace ∧
        resp.StatusCode = 200 ∧ resp.bodyErr = some e) :
    (GetBrews w city fs).exitCode = some 1 ∧ Event.logFatal e ∈ (GetBrews w city fs).trace := by
  have hne := brewurl_ne_ipUrl city
  have hne2 : ipUrl ≠ brewurl city := fun h => hne h.symm
  simp only [GetBrews_apply, getMyIP_apply] at h ⊢
  cases hca : fs rootCAFile with
  | fail e1 =>
    simp_all [Result.trace, Result.exitCode]
  | ok ca =>
    simp only [hca] at h ⊢
    cases hip : w.httpGet (caClient ca) ipUrl with
    | fail e2 r2 =>
      simp_all [Result.trace, Result.exitCode]
    | ok resp =>
      simp only [hip] at h ⊢
      by_cases hs : resp.StatusCode = 200
      · cases hb : resp.bodyErr with
        | some e4 =>
          simp_all [Result.trace, Result.exitCode]
          obtain ⟨c, resp2, ⟨_, h2⟩, _, h4⟩ := h
          subst h2
          rw [hb] at h4
          exact (Option.some.inj h4).symm
        | none =>
          simp_all [Result.trace, Result.exitCode]
          obtain ⟨c, resp2, ⟨_, h2⟩, _, h4⟩ := h
          subst h2
          rw [hb] at h4
          exact Option.noConfusion h4
      · simp_all [Result.trace, Result.exitCode]
        obtain ⟨c, resp2, ⟨_, h2⟩, h3, _⟩ := h
        subst h2
        exact hs h3

/-- An event of the brewery path comes from `GetBrews`, or is a line printed by `main`. -/
theorem mem_GetBrews_of_mem_path (w : World) (fs : Files) (ev : Event)
    (h : ev ∈ (getBrewsPath w fs).trace) :
    ev ∈ (GetBrews w "san_diego" fs).trace ∨ (∃ t, ev = .stdout t) ∨ ∃ b, ev = .stdoutBrews b := by
  rw [getBrewsPath_apply] at h
  cases hres : GetBrews w "san_diego" fs with
  | exit c fs1 tr =>
    simp only [hres] at h
    exact Or.inl h
  | ret v fs1 tr =>
    obtain ⟨b, err⟩ := v
    cases err <;>
      simp only [hres, Result.trace, List.mem_append, List.mem_cons, List.mem_singleton,
        List.not_mem_nil, or_false] at h ⊢
    · rcases h with h | h
      · exact Or.inl h
      · exact Or.inr (Or.inr ⟨b, h⟩)
    · rcases h with h | h | h
      · exact Or.inl h
      · exact Or.inr (Or.inl ⟨_, h⟩)
      · exact Or.inr (Or.inr ⟨b, h⟩)

/-- When `GetBrews` ends the process, so does the brewery path, with the same events. -/
theorem getBrewsPath_of_exit (w : World) (fs : Files) (code : Nat)
    (h : (GetBrews w "san_diego" fs).exitCode = some code) :
    (getBrewsPath w fs).exitCode = some code ∧
      (getBrewsPath w fs).trace = (GetBrews w "san_diego" fs).trace := by
  rw [getBrewsPath_apply]
  cases hres : GetBrews w "san_diego" fs with
  | exit c fs1 tr =>
    rw [hres] at h
    exact ⟨h, rfl⟩
  | ret v fs1 tr => simp [hres, Result.exitCode] at h

/-- The two errors of the brewery path that are printed. -/
theorem getBrewsPath_printed (w : World) (fs : Files) (c : Client) (e : Err)
    (h : (∃ r, Event.httpGet c (brewurl "san_diego") (.fail e r) ∈ (getBrewsPath w fs).trace) ∨
      ∃ resp, Event.httpGet c (brewurl "san_diego") (.ok resp) ∈ (getBrewsPath w fs).trace ∧
        resp.bodyErr = some e) :
    (getBrewsPath w fs).exitCode = none ∧
      Event.stdout ("Error Getting San Diego, " ++ e) ∈ (getBrewsPath w fs).trace := by
  have key : ∃ r, Event.httpGet c (brewurl "san_diego") r ∈ (GetBrews w "san_diego" fs).trace ∧
      (match r with
        | .fail e2 _ => e2 = e
        | .ok resp => resp.bodyErr = some e) := by
    rcases h with ⟨r, h⟩ | ⟨resp, h, hb⟩
    · refine ⟨.fail e r, ?_, rfl⟩
      rcases mem_GetBrews_of_mem_path w fs _ h with h1 | ⟨t, h1⟩ | ⟨b, h1⟩
      · exact h1
      · cases h1
      · cases h1
    · refine ⟨.ok resp, ?_, hb⟩
      rcases mem_GetBrews_of_mem_path w fs _ h with h1 | ⟨t, h1⟩ | ⟨b, h1⟩
      · exact h1
      · cases h1
      · cases h1
  obtain ⟨r, hmem, hr⟩ := key
  obtain ⟨hreq, fs1, tr, heq⟩ := GetBrews_of_brew_event w "san_diego" fs c r hmem
  have hreply : brewsReply w c "san_diego" = ([], some e) := by
    unfold brewsReply
    rw [← hreq]
    cases r with
    | fail e2 r2 => simp only at hr; simp [hr]
    | ok resp => simp only at hr; simp [hr]
  rw [getBrewsPath_apply, heq, hreply]
  simp [Result.exitCode, Result.trace]

/-- The three errors of the brewery path that end the process. -/
theorem getBrewsPath_fatal (w : World) (fs : Files) (e : Err)
    (h : Event.readFile rootCAFile (.fail e) ∈ (getBrewsPath w fs).trace ∨
      (∃ c r, Event.httpGet c ipUrl (.fail e r) ∈ (getBrewsPath w fs).trace) ∨
      ∃ c resp, Event.httpGet c ipUrl (.ok resp) ∈ (getBrewsPath w fs).trace ∧
        resp.StatusCode = 200 ∧ resp.bodyErr = some e) :
    (getBrewsPath w fs).exitCode = some 1 ∧ Event.logFatal e ∈ (getBrewsPath w fs).trace := by
  have key := GetBrews_fatal w "san_diego" fs e (by
    rcases h with h | ⟨c, r, h⟩ | ⟨c, resp, h, hs, hb⟩
    · rcases mem_GetBrews_of_mem_path w fs _ h with h1 | ⟨t, h1⟩ | ⟨b, h1⟩
      · exact Or.inl h1
      · cases h1
      · cases h1
    · rcases mem_GetBrews_of_mem_path w fs _ h with h1 | ⟨t, h1⟩ | ⟨b, h1⟩
      · exact Or.inr (Or.inl ⟨c, r, h1⟩)
      · cases h1
      · cases h1
    · rcases mem_GetBrews_of_mem_path w fs _ h with h1 | ⟨t, h1⟩ | ⟨b, h1⟩
      · exact Or.inr (Or.inr ⟨c, resp, h1, hs, hb⟩)
      · cases h1
      · cases h1)
  obtain ⟨hx, ht⟩ := getBrewsPath_of_exit w fs 1 key.1
  exact ⟨hx, by rw [ht]; exact key.2⟩

theorem whenFlag_true (m : M Unit) : whenFlag true m = m := rfl

theorem whenFlag_false (m : M Unit) (fs : Files) : whenFlag false m fs = .ret () fs [] := rfl

theorem mainAfterCA_events (w : World) (f : Flags) (fs : Files) :
    ∀ ev ∈ (mainAfterCA w f fs).trace, caEvent ev := by
  unfold mainAfterCA
  cases f.getCA
  · simp [whenFlag_false, Result.trace]
  · exact getCAPath_events w fs

/-- An event of `main` up to the brewery path that the CA path cannot produce
belongs to the brewery path, which then settles how far `main` got. -/
theorem mainAfterBrews_of_event (w : World) (f : Flags) (fs : Files) (ev : Event)
    (hca : ¬ caEvent ev) (h : ev ∈ (mainAfterBrews w f fs).trace) :
    ∃ fs1, f.getBrews = true ∧ ev ∈ (getBrewsPath w fs1).trace ∧
      (mainAfterBrews w f fs).exitCode = (getBrewsPath w fs1).exitCode ∧
      ∀ ev2 ∈ (getBrewsPath w fs1).trace, ev2 ∈ (mainAfterBrews w f fs).trace := by
  unfold mainAfterBrews at h ⊢
  rw [bind_apply] at h ⊢
  rcases (mem_trace_bind _ _ fs ev).1 h with h1 | ⟨a, fs1, t1, hret, h2⟩
  · exact absurd (mainAfterCA_events w f fs ev h1) hca
  · cases hb : f.getBrews with
    | false => simp [hb, whenFlag_false, Result.trace] at h2
    | true =>
      rw [hb, whenFlag_true] at h2
      refine ⟨fs1, rfl, h2, ?_, ?_⟩
      · rw [exitCode_bind_of_ret _ _ fs fs1 a t1 hret, whenFlag_true]
      · intro ev2 hev2
        rw [trace_bind_of_ret _ _ fs fs1 a t1 hret, whenFlag_true]
        exact List.mem_append_right _ hev2

theorem brew_event_not_ca (c : Client) (r : HTTPResult) :
    ¬ caEvent (.httpGet c (brewurl "san_diego") r) := by
  have h : brewurl "san_diego" ≠ caUrl := by decide
  simpa [caEvent] using h

theorem ip_event_not_ca (c : Client) (r : HTTPResult) : ¬ caEvent (.httpGet c ipUrl r) := by
  have h : ipUrl ≠ caUrl := by decide
  simpa [caEvent] using h

theorem read_event_not_ca (path : String) (r : ReadResult) : ¬ caEvent (.readFile path r) := by
  simp [caEvent]

/-- C1, as stated, fails: with `-getbrews` set and `rootCA.crt` missing, the read
error met while the client is built is handed to `log.Fatal`; nothing is printed
about it and the process ends with status 1 inside the brewery path. -/
theorem brewery_path_can_exit :
    (mainAfterBrews (sampleWorld noFiles refused refused refused refused)
        { getBrews := true } noFiles).exitCode = some 1 ∧
      (mainAfterBrews (sampleWorld noFiles refused refused refused refused)
        { getBrews := true } noFiles).trace =
        [.stdout (brewurl "san_diego" ++ "\n"),
         .readFile rootCAFile (.fail "no such file or directory"),
         .logFatal "no such file or directory"] := by
  constructor <;> rfl

/-- C1, amended. For every run with `-getbrews` set: an error of the brewery
request, or of reading its response body, is printed and the process is still
running after the brewery path; an error of reading `rootCA.crt`, of the IP-echo
request, or of reading the IP-echo body is logged by `log.Fatal` and the process
ends with status 1. -/
theorem brewery_errors_printed_or_fatal (w : World) (f : Flags) (_hflag : f.getBrews = true) :
    (∀ c e r, Event.httpGet c (brewurl "san_diego") (.fail e r) ∈
        (mainAfterBrews w f w.files).trace →
      (mainAfterBrews w f w.files).exitCode = none ∧
        Event.stdout ("Error Getting San Diego, " ++ e) ∈ (mainAfterBrews w f w.files).trace) ∧
    (∀ c resp e, Event.httpGet c (brewurl "san_diego") (.ok resp) ∈
        (mainAfterBrews w f w.files).trace → resp.bodyErr = some e →
      (mainAfterBrews w f w.files).exitCode = none ∧
        Event.stdout ("Error Getting San Diego, " ++ e) ∈ (mainAfterBrews w f w.files).trace) ∧
    (∀ e, Event.readFile rootCAFile (.fail e) ∈ (mainAfterBrews w f w.files).trace →
      (mainAfterBrews w f w.files).exitCode = some 1 ∧
        Event.logFatal e ∈ (mainAfterBrews w f w.files).trace) ∧
    (∀ c e r, Event.httpGet c ipUrl (.fail e r) ∈ (mainAfterBrews w f w.files).trace →
      (mainAfterBrews w f w.files).exitCode = some 1 ∧
        Event.logFatal e ∈ (mainAfterBrews w f w.files).trace) ∧
    (∀ c resp e, Event.httpGet c ipUrl (.ok resp) ∈ (mainAfterBrews w f w.files).trace →
      resp.StatusCode = 200 → resp.bodyErr = some e →
      (mainAfterBrews w f w.files).exitCode = some 1 ∧
        Event.logFatal e ∈ (mainAfterBrews w f w.files).trace) := by
  refine ⟨?_, ?_, ?_, ?_, ?_⟩
  · intro c e r h
    obtain ⟨fs1, _, hmem, hcode, hsub⟩ :=
      mainAfterBrews_of_event w f w.files _ (brew_event_not_ca c _) h
    obtain ⟨h1, h2⟩ := getBrewsPath_printed w fs1 c e (Or.inl ⟨r, hmem⟩)
    exact ⟨hcode.trans h1, hsub _ h2⟩
  · intro c resp e h hb
    obtain ⟨fs1, _, hmem, hcode, hsub⟩ :=
      mainAfterBrews_of_event w f w.files _ (brew_event_not_ca c _) h
    obtain ⟨h1, h2⟩ := getBrewsPath_printed w fs1 c e (Or.inr ⟨resp, hmem, hb⟩)
    exact ⟨hcode.trans h1, hsub _ h2⟩
  · intro e h
    obtain ⟨fs1, _, hmem, hcode, hsub⟩ :=
      mainAfterBrews_of_event w f w.files _ (read_event_not_ca _ _) h
    obtain ⟨h1, h2⟩ := getBrewsPath_fatal w fs1 e (Or.inl hmem)
    exact ⟨hcode.trans h1, hsub _ h2⟩
  · intro c e r h
    obtain ⟨fs1, _, hmem, hcode, hsub⟩ :=
      mainAfterBrews_of_event w f w.files _ (ip_event_not_ca c _) h
    obtain ⟨h1, h2⟩ := getBrewsPath_fatal w fs1 e (Or.inr (Or.inl ⟨c, r, hmem⟩))
    exact ⟨hcode.trans h1, hsub _ h2⟩
  · intro c resp e h hs hb
    obtain ⟨fs1, _, hmem, hcode, hsub⟩ :=
      mainAfterBrews_of_event w f w.files _ (ip_event_not_ca c _) h
    obtain ⟨h1, h2⟩ := getBrewsPath_fatal w fs1 e (Or.inr (Or.inr ⟨c, resp, hmem, hs, hb⟩))
    exact ⟨hcode.trans h1, hsub _ h2⟩

/-- C1, amended, in five worlds, one for each kind of error. -/
theorem brewery_errors_printed_or_fatal_witness :
    ((mainAfterBrews (sampleWorld sampleFiles refused (okReply ipText) refused refused)
          { getBrews := true } sampleFiles).exitCode = none ∧
      Event.stdout "Error Getting San Diego, connection refused" ∈
        (mainAfterBrews (sampleWorld sampleFiles refused (okReply ipText) refused refused)
          { getBrews := true } sampleFiles).trace) ∧
    ((mainAfterBrews (sampleWorld sampleFiles refused (okReply ipText) (brokenReply [91]) refused)
          { getBrews := true } sampleFiles).exitCode = none ∧
      Event.stdout "Error Getting San Diego, unexpected EOF" ∈
        (mainAfterBrews (sampleWorld sampleFiles refused (okReply ipText) (brokenReply [91]) refused)
          { getBrews := true } sampleFiles).trace) ∧
    ((mainAfterBrews (sampleWorld noFiles refused refused refused refused)
          { getBrews := true } noFiles).exitCode = some 1 ∧
      Event.logFatal "no such file or directory" ∈
        (mainAfterBrews (sampleWorld noFiles refused refused refused refused)
          { getBrews := true } noFiles).trace) ∧
    ((mainAfterBrews (sampleWorld sampleFiles refused refused refused refused)
          { getBrews := true } sampleFiles).exitCode = some 1 ∧
      Event.logFatal "connection refused" ∈
        (mainAfterBrews (sampleWorld sampleFiles refused refused refused refused)
          { getBrews := true } sampleFiles).trace) ∧
    ((mainAfterBrews (sampleWorld sampleFiles refused (brokenReply ipText) refused refused)
          { getBrews := true } sampleFiles).exitCode = some 1 ∧
      Event.logFatal "unexpected EOF" ∈
        (mainAfterBrews (sampleWorld sampleFiles refused (brokenReply ipText) refused refused)
          { getBrews := true } sampleFiles).trace) :=
  ⟨(brewery_errors_printed_or_fatal
      (sampleWorld sampleFiles refused (okReply ipText) refused refused)
      { getBrews := true } rfl).1 (caClient [45, 45]) "connection refused" none (by decide),
   (brewery_errors_printed_or_fatal
      (sampleWorld sampleFiles refused (okReply ipText) (brokenReply [91]) refused)
      { getBrews := true } rfl).2.1 (caClient [45, 45])
      { StatusCode := 200, body := [91], bodyErr := some "unexpected EOF" } "unexpected EOF"
      (by decide) rfl,
   (brewery_errors_printed_or_fatal (sampleWorld noFiles refused refused refused refused)
      { getBrews := true } rfl).2.2.1 "no such file or directory" (by decide),
   (brewery_errors_printed_or_fatal (sampleWorld sampleFiles refused refused refused refused)
      { getBrews := true } rfl).2.2.2.1 (caClient [45, 45]) "connection refused" none (by decide),
   (brewery_errors_printed_or_fatal
      (sampleWorld sampleFiles refused (brokenReply ipText) refused refused)
      { getBrews := true } rfl).2.2.2.2 (caClient [45, 45])
      { StatusCode := 200, body := ipText, bodyErr := some "unexpected EOF" } "unexpected EOF"
      (by decide) rfl rfl⟩

/-! ## The mTLS path -/

theorem loadX509KeyPair_apply (w : World) (cf kf : String) (fs : Files) :
    loadX509KeyPair w cf kf fs =
      match fs cf with
      | .fail e => .ret (.error e) fs [.readFile cf (.fail e), .loadKeyPair cf kf (some e)]
      | .ok certPEM =>
        match fs kf with
        | .fail e =>
          .ret (.error e) fs
            [.readFile cf (.ok certPEM), .readFile kf (.fail e), .loadKeyPair cf kf (some e)]
        | .ok keyPEM =>
          match w.x509KeyPair certPEM keyPEM with
          | some e =>
            .ret (.error e) fs
              [.readFile cf (.ok certPEM), .readFile kf (.ok keyPEM), .loadKeyPair cf kf (some e)]
          | none =>
            .ret (.ok { certPEM := certPEM, keyPEM := keyPEM }) fs
              [.readFile cf (.ok certPEM), .readFile kf (.ok keyPEM), .loadKeyPair cf kf none] := by
  simp only [loadX509KeyPair, loadX509KeyPairFiles, readFile, bind_apply, M.bind]
  cases h1 : fs cf with
  | fail e => simp [bind_apply, M.bind, pure_apply, emit]
  | ok certPEM =>
    cases h2 : fs kf with
    | fail e => simp [bind_apply, M.bind, pure_apply, emit, readFile, h2]
    | ok keyPEM =>
      cases h3 : w.x509KeyPair certPEM keyPEM <;>
        simp [bind_apply, M.bind, pure_apply, emit, readFile, h2, h3]

theorem trashClient_apply (f : Flags) (cert : Certificate) (fs : Files) :
    trashClient f cert fs =
      if f.useProxy = true then
        match fs rootCAFile with
        | .fail e =>
          .exit 1 fs [.stdout ("Connecting to Trashcan using proxy: " ++ proxyUrl ++ "\n"),
            .readFile rootCAFile (.fail e), .logFatal e]
        | .ok ca =>
          .ret (proxiedTrashClient ca cert) fs
            [.stdout ("Connecting to Trashcan using proxy: " ++ proxyUrl ++ "\n"),
              .readFile rootCAFile (.ok ca)]
      else
        .ret (directTrashClient cert) fs [.stdout "Connecting to Trashcan without Proxy\n"] := by
  unfold trashClient
  cases hp : f.useProxy with
  | false => simp [bind_apply, M.bind, pure_apply, printf, emit]
  | true =>
    cases hca : fs rootCAFile <;>
      simp [bind_apply, M.bind, pure_apply, printf, emit, readFile, logFatal, hca]

theorem trashSend_apply (w : World) (c : Client) (fs : Files) :
    trashSend w c fs =
      match w.httpDo c mtlsRequest with
      | .fail e r => .exit 1 fs [.httpDo c mtlsRequest (.fail e r), .logFatal e]
      | .ok r =>
        match r.bodyErr with
        | some e => .exit 1 fs [.httpDo c mtlsRequest (.ok r), .logFatal e]
        | none => .ret () fs [.httpDo c mtlsRequest (.ok r), .stdoutBytes (r.body ++ [10])] := by
  simp only [trashSend, clientDo, readAll, bind_apply, M.bind]
  cases hd : w.httpDo c mtlsRequest with
  | fail e r => simp [logFatal]
  | ok r => cases hb : r.bodyErr <;> simp [logFatal, emit, hb]

theorem getTrashPath_apply (w : World) (f : Flags) (fs : Files) :
    getTrashPath w f fs =
      match loadX509KeyPair w f.mtlsClientCert f.mtlsClientKey fs with
      | .exit code fs1 tr => .exit code fs1 tr
      | .ret (.error e) fs1 tr => .exit 1 fs1 (tr ++ [.logFatal e])
      | .ret (.ok cert) fs1 tr =>
        match trashClient f cert fs1 with
        | .exit code fs2 tr2 => .exit code fs2 (tr ++ tr2)
        | .ret client fs2 tr2 =>
          match trashSend w client fs2 with
          | .exit code fs3 tr3 => .exit code fs3 (tr ++ (tr2 ++ tr3))
          | .ret _ fs3 tr3 => .ret () fs3 (tr ++ (tr2 ++ tr3)) := by
  simp only [getTrashPath, bind_apply, M.bind]
  cases h1 : loadX509KeyPair w f.mtlsClientCert f.mtlsClientKey fs with
  | exit code fs1 tr => rfl
  | ret r fs1 tr =>
    cases r with
    | error e => simp [logFatal]
    | ok cert =>
      simp only [bind_apply, M.bind]
      cases h2 : trashClient f cert fs1 with
      | exit code fs2 tr2 => simp
      | ret client fs2 tr2 =>
        cases h3 : trashSend w client fs2 <;> simp [h3]

theorem loadX509KeyPair_events (w : World) (cf kf : String) (fs : Files) :
    ∀ ev ∈ (loadX509KeyPair w cf kf fs).trace, loadEvent ev := by
  rw [loadX509KeyPair_apply]
  cases h1 : fs cf with
  | fail e => simp [Result.trace, loadEvent]
  | ok certPEM =>
    cases h2 : fs kf with
    | fail e => simp [Result.trace, loadEvent]
    | ok keyPEM =>
      cases h3 : w.x509KeyPair certPEM keyPEM <;> simp [h3, Result.trace, loadEvent]

/-- The recorded outcome of `tls.LoadX509KeyPair` is the outcome it returns. -/
theorem loadX509KeyPair_outcome (w : World) (cf kf : String) (fs fs1 : Files)
    (r : Except Err Certificate) (tr : List Event)
    (h : loadX509KeyPair w cf kf fs = .ret r fs1 tr) (cf2 kf2 : String) (oe : Option Err)
    (hmem : Event.loadKeyPair cf2 kf2 oe ∈ tr) :
    oe = (match r with
      | .error e => some e
      | .ok _ => none) := by
  rw [loadX509KeyPair_apply] at h
  cases h1 : fs cf with
  | fail e =>
    simp [h1] at h
    obtain ⟨hr, _, ht⟩ := h
    subst hr ht
    simp at hmem
    simp [hmem]
  | ok certPEM =>
    simp only [h1] at h
    cases h2 : fs kf with
    | fail e =>
      simp [h2] at h
      obtain ⟨hr, _, ht⟩ := h
      subst hr ht
      simp at hmem
      simp [hmem]
    | ok keyPEM =>
      simp only [h2] at h
      cases h3 : w.x509KeyPair certPEM keyPEM with
      | some e =>
        simp [h3] at h
        obtain ⟨hr, _, ht⟩ := h
        subst hr ht
        simp at hmem
        simp [hmem]
      | none =>
        simp [h3] at h
        obtain ⟨hr, _, ht⟩ := h
        subst hr ht
        simp at hmem
        simp [hmem]

theorem loadX509KeyPair_returns (w : World) (cf kf : String) (fs : Files) :
    (loadX509KeyPair w cf kf fs).exitCode = none := by
  rw [loadX509KeyPair_apply]
  cases h1 : fs cf with
  | fail e => rfl
  | ok certPEM =>
    cases h2 : fs kf with
    | fail e => rfl
    | ok keyPEM => cases h3 : w.x509KeyPair certPEM keyPEM <;> simp [h3, Result.exitCode]

theorem trashClient_events (f : Flags) (cert : Certificate) (fs : Files) :
    ∀ ev ∈ (trashClient f cert fs).trace, clientEvent ev := by
  rw [trashClient_apply]
  cases hp : f.useProxy with
  | false => simp [Result.trace, clientEvent]
  | true => cases hca : fs rootCAFile <;> simp [Result.trace, clientEvent]

/-- The client handed to the request is the proxied one exactly under `-useproxy`. -/
theorem trashClient_of_ret (f : Flags) (cert : Certificate) (fs fs1 : Files) (c : Client)
    (tr : List Event) (h : trashClient f cert fs = .ret c fs1 tr) :
    (f.useProxy = true ∧ ∃ ca, c = proxiedTrashClient ca cert) ∨
      (f.useProxy = false ∧ c = directTrashClient cert) := by
  rw [trashClient_apply] at h
  cases hp : f.useProxy with
  | false =>
    simp [hp] at h
    exact Or.inr ⟨rfl, h.1.symm⟩
  | true =>
    cases hca : fs rootCAFile with
    | fail e => simp [hp, hca] at h
    | ok ca =>
      simp [hp, hca] at h
      exact Or.inl ⟨rfl, ca, h.1.symm⟩

theorem trashSend_events (w : World) (c : Client) (fs : Files) :
    ∀ ev ∈ (trashSend w c fs).trace, sendEvent c ev := by
  rw [trashSend_apply]
  cases hd : w.httpDo c mtlsRequest with
  | fail e r => simp [Result.trace, sendEvent]
  | ok r => cases hb : r.bodyErr <;> simp [hb, Result.trace, sendEvent]

/-- The client of a request sent by the mTLS path. -/
theorem getTrashPath_do (w : World) (f : Flags) (fs : Files) (c : Client) (req : Request)
    (r : HTTPResult) (h : Event.httpDo c req r ∈ (getTrashPath w f fs).trace) :
    req = mtlsRequest ∧ ∃ cert,
      (f.useProxy = true ∧ ∃ ca, c = proxiedTrashClient ca cert) ∨
        (f.useProxy = false ∧ c = directTrashClient cert) := by
  rw [getTrashPath_apply] at h
  have hload := loadX509KeyPair_events w f.mtlsClientCert f.mtlsClientKey fs (.httpDo c req r)
  cases h1 : loadX509KeyPair w f.mtlsClientCert f.mtlsClientKey fs with
  | exit code fs1 tr =>
    simp only [h1, Result.trace] at h hload
    exact absurd (hload h) (by simp [loadEvent])
  | ret res fs1 tr =>
    simp only [h1, Result.trace] at hload
    cases res with
    | error e =>
      simp only [h1, Result.trace, List.mem_append, List.mem_singleton] at h
      rcases h with h | h
      · exact absurd (hload h) (by simp [loadEvent])
      · cases h
    | ok cert =>
      simp only [h1] at h
      have hcl := trashClient_events f cert fs1 (.httpDo c req r)
      cases h2 : trashClient f cert fs1 with
      | exit code fs2 tr2 =>
        simp only [h2, Result.trace, List.mem_append] at h hcl
        rcases h with h | h
        · exact absurd (hload h) (by simp [loadEvent])
        · exact absurd (hcl h) (by simp [clientEvent])
      | ret client fs2 tr2 =>
        simp only [h2, Result.trace] at hcl
        simp only [h2] at h
        have hsend := trashSend_events w client fs2 (.httpDo c req r)
        have hmem : Event.httpDo c req r ∈ tr ++ (tr2 ++ (trashSend w client fs2).trace) := by
          cases h3 : trashSend w client fs2 <;> simpa [h3, Result.trace] using h
        simp only [List.mem_append] at hmem
        rcases hmem with hm | hm | hm
        · exact absurd (hload hm) (by simp [loadEvent])
        · exact absurd (hcl hm) (by simp [clientEvent])
        · have hs := hsend hm
          simp only [sendEvent] at hs
          obtain ⟨hc, hreq⟩ := hs
          subst hc
          exact ⟨hreq, cert, trashClient_of_ret f cert fs1 fs2 c tr2 h2⟩

/-- When the key pair fails to load, the mTLS path logs the error and ends the
process with status 1, having done nothing but read files. -/
theorem getTrashPath_load_failure (w : World) (f : Flags) (fs : Files) (cf kf : String)
    (e : Err) (h : Event.loadKeyPair cf kf (some e) ∈ (getTrashPath w f fs).trace) :
    (getTrashPath w f fs).exitCode = some 1 ∧
      ∀ ev ∈ (getTrashPath w f fs).trace, loadEvent ev ∨ ∃ m, ev = .logFatal m := by
  rw [getTrashPath_apply] at h ⊢
  have hload := loadX509KeyPair_events w f.mtlsClientCert f.mtlsClientKey fs
  have hret := loadX509KeyPair_returns w f.mtlsClientCert f.mtlsClientKey fs
  cases h1 : loadX509KeyPair w f.mtlsClientCert f.mtlsClientKey fs with
  | exit code fs1 tr => simp [h1, Result.exitCode] at hret
  | ret res fs1 tr =>
    simp only [h1, Result.trace] at hload
    cases res with
    | error e2 =>
      refine ⟨rfl, ?_⟩
      intro ev hev
      simp only [Result.trace, List.mem_append, List.mem_singleton] at hev
      rcases hev with hev | hev
      · exact Or.inl (hload ev hev)
      · exact Or.inr ⟨e2, hev⟩
    | ok cert =>
      exfalso
      simp only [h1] at h
      have hout := loadX509KeyPair_outcome w _ _ fs fs1 _ tr h1 cf kf (some e)
      have hcl := trashClient_events f cert fs1 (.loadKeyPair cf kf (some e))
      cases h2 : trashClient f cert fs1 with
      | exit code fs2 tr2 =>
        simp only [h2, Result.trace, List.mem_append] at h hcl
        rcases h with h | h
        · exact absurd (hout h) (by simp)
        · exact absurd (hcl h) (by simp [clientEvent])
      | ret client fs2 tr2 =>
        simp only [h2, Result.trace] at hcl
        simp only [h2] at h
        have hsend := trashSend_events w client fs2 (.loadKeyPair cf kf (some e))
        have hmem : Event.loadKeyPair cf kf (some e) ∈
            tr ++ (tr2 ++ (trashSend w client fs2).trace) := by
          cases h3 : trashSend w client fs2 <;> simpa [h3, Result.trace] using h
        simp only [List.mem_append] at hmem
        rcases hmem with hm | hm | hm
        · exact absurd (hout hm) (by simp)
        · exact absurd (hcl hm) (by simp [clientEvent])
        · exact absurd (hsend hm) (by simp [sendEvent])

/-! ## Paths that leave the file system alone -/

theorem GetBrews_files (w : World) (city : String) (fs : Files) :
    (GetBrews w city fs).files = fs := by
  rw [GetBrews_apply]
  cases hca : fs rootCAFile with
  | fail e => rfl
  | ok ca =>
    have hip := getMyIP_files w (caClient ca) fs
    cases hres : getMyIP w (caClient ca) fs <;> simpa [hres, Result.files] using hip

theorem getBrewsPath_files (w : World) (fs : Files) : (getBrewsPath w fs).files = fs := by
  have hg := GetBrews_files w "san_diego" fs
  rw [getBrewsPath_apply]
  cases hres : GetBrews w "san_diego" fs with
  | exit c fs1 tr => simpa [hres, Result.files] using hg
  | ret v fs1 tr =>
    obtain ⟨b, err⟩ := v
    cases err <;> simpa [hres, Result.files] using hg

theorem loadX509KeyPair_files (w : World) (cf kf : String) (fs : Files) :
    (loadX509KeyPair w cf kf fs).files = fs := by
  rw [loadX509KeyPair_apply]
  cases h1 : fs cf with
  | fail e => rfl
  | ok certPEM =>
    cases h2 : fs kf with
    | fail e => rfl
    | ok keyPEM => cases h3 : w.x509KeyPair certPEM keyPEM <;> simp [h3, Result.files]

theorem trashClient_files (f : Flags) (cert : Certificate) (fs : Files) :
    (trashClient f cert fs).files = fs := by
  rw [trashClient_apply]
  cases hp : f.useProxy with
  | false => simp [Result.files]
  | true => cases hca : fs rootCAFile <;> simp [Result.files]

theorem trashSend_files (w : World) (c : Client) (fs : Files) :
    (trashSend w c fs).files = fs := by
  rw [trashSend_apply]
  cases hd : w.httpDo c mtlsRequest with
  | fail e r => rfl
  | ok r => cases hb : r.bodyErr <;> simp [hb, Result.files]

theorem getTrashPath_files (w : World) (f : Flags) (fs : Files) :
    (getTrashPath w f fs).files = fs := by
  rw [getTrashPath_apply]
  have hl := loadX509KeyPair_files w f.mtlsClientCert f.mtlsClientKey fs
  cases h1 : loadX509KeyPair w f.mtlsClientCert f.mtlsClientKey fs with
  | exit code fs1 tr => simpa [h1, Result.files] using hl
  | ret res fs1 tr =>
    have hfs : fs1 = fs := by simpa [h1, Result.files] using hl
    subst hfs
    cases res with
    | error e => rfl
    | ok cert =>
      have hc := trashClient_files f cert fs1
      cases h2 : trashClient f cert fs1 with
      | exit code fs2 tr2 => simpa [h2, Result.files] using hc
      | ret client fs2 tr2 =>
        have hfs2 : fs2 = fs1 := by simpa [h2, Result.files] using hc
        subst hfs2
        have hs := trashSend_files w client fs2
        cases h3 : trashSend w client fs2 <;> simpa [h2, h3, Result.files] using hs

/-- After the CA path nothing writes to the file system any more. -/
theorem run_files (w : World) (f : Flags) :
    (run w f).files = (mainAfterCA w f w.files).files := by
  have step : ∀ (m : M Unit) (g : M Unit) (fs : Files), (∀ fs1, (g fs1).files = fs1) →
      (M.bind m (fun _ => g) fs).files = (m fs).files := by
    intro m g fs hg
    cases hm : m fs with
    | exit c fs1 t1 => rw [bind_of_exit m _ fs fs1 c t1 hm]
    | ret a fs1 t1 =>
      rw [files_bind_of_ret m _ fs fs1 a t1 hm, hg fs1]
      rfl
  have hb : ∀ fs1, (whenFlag f.getBrews (getBrewsPath w) fs1).files = fs1 := by
    intro fs1
    cases f.getBrews
    · rfl
    · exact getBrewsPath_files w fs1
  have ht : ∀ fs1, (whenFlag f.getTrashCan (getTrashPath w f) fs1).files = fs1 := by
    intro fs1
    cases f.getTrashCan
    · rfl
    · exact getTrashPath_files w f fs1
  unfold run main
  rw [bind_apply, step _ _ _ ht]
  unfold mainAfterBrews
  rw [bind_apply, step _ _ _ hb]

/-- C7. For every non-empty byte sequence served by the CA endpoint, when `-getca`
is set and the request, the creation of `rootCA.crt` and the copy all succeed,
the process is still running after the CA path and `rootCA.crt` then holds
exactly the bytes served, whatever it held before; so it is non-empty.  The
later paths write no file, so the same holds when the run is over. -/
theorem rootCA_holds_served_bytes (w : World) (f : Flags) (resp : Response)
    (hflag : f.getCA = true)
    (hget : w.httpGet setupHTTPTransport caUrl = .ok resp)
    (hne : resp.body ≠ [])
    (hcreate : w.createErr rootCAFile = none)
    (hcopy : ∀ fs, (ioCopy w (some rootCAFile) resp fs).value = some none) :
    (mainAfterCA w f w.files).exitCode = none ∧
      (mainAfterCA w f w.files).files rootCAFile = .ok resp.body ∧
      (mainAfterCA w f w.files).files rootCAFile ≠ .ok [] ∧
      (run w f).files rootCAFile = .ok resp.body := by
  have hw := written_of_copy_ok w resp hcopy
  have hrun : mainAfterCA w f w.files =
      .ret () (fun p => if p = rootCAFile then .ok resp.body
                        else if p = rootCAFile then .ok [] else w.files p)
        [.httpGet setupHTTPTransport caUrl (.ok resp), .create rootCAFile none] := by
    simp [mainAfterCA, whenFlag, hflag, getCAPath_apply, storeCA_apply, hget, hcreate, hw]
  rw [run_files, hrun]
  simp [Result.exitCode, Result.files, hne]

/-- C7 in a world where `rootCA.crt` held other bytes before the download. -/
theorem rootCA_holds_served_bytes_witness :
    (mainAfterCA (sampleWorld sampleFiles (okReply [45, 66]) refused refused refused)
        { getCA := true } sampleFiles).files rootCAFile = .ok [45, 66] ∧
      sampleFiles rootCAFile = .ok [45, 45] :=
  ⟨(rootCA_holds_served_bytes (sampleWorld sampleFiles (okReply [45, 66]) refused refused refused)
      { getCA := true } { StatusCode := 200, body := [45, 66] } rfl rfl (by decide) rfl
      (fun _ => rfl)).2.1, rfl⟩

/-! ## The whole run -/

theorem mainAfterBrews_events (w : World) (f : Flags) (fs : Files) :
    ∀ ev ∈ (mainAfterBrews w f fs).trace, caEvent ev ∨ brewsEvent ev := by
  intro ev h
  unfold mainAfterBrews at h
  rw [bind_apply] at h
  rcases (mem_trace_bind _ _ fs ev).1 h with h1 | ⟨a, fs1, t1, _, h2⟩
  · exact Or.inl (mainAfterCA_events w f fs ev h1)
  · cases hb : f.getBrews with
    | false => simp [hb, whenFlag_false, Result.trace] at h2
    | true =>
      rw [hb, whenFlag_true] at h2
      exact Or.inr (getBrewsPath_events w fs1 ev h2)

/-- An event of `main` that neither the CA path nor the brewery path can produce
belongs to the mTLS path, which then settles how the run ends. -/
theorem main_of_event (w : World) (f : Flags) (fs : Files) (ev : Event)
    (hca : ¬ caEvent ev) (hb : ¬ brewsEvent ev) (h : ev ∈ (main w f fs).trace) :
    ∃ fs1 t1, f.getTrashCan = true ∧ ev ∈ (getTrashPath w f fs1).trace ∧
      (main w f fs).exitCode = (getTrashPath w f fs1).exitCode ∧
      (main w f fs).trace = t1 ++ (getTrashPath w f fs1).trace ∧
      ∀ ev2 ∈ t1, caEvent ev2 ∨ brewsEvent ev2 := by
  unfold main at h ⊢
  rw [bind_apply] at h ⊢
  rcases (mem_trace_bind _ _ fs ev).1 h with h1 | ⟨a, fs1, t1, hret, h2⟩
  · rcases mainAfterBrews_events w f fs ev h1 with h3 | h3
    · exact absurd h3 hca
    · exact absurd h3 hb
  · cases ht : f.getTrashCan with
    | false => simp [ht, whenFlag_false, Result.trace] at h2
    | true =>
      rw [ht, whenFlag_true] at h2
      refine ⟨fs1, t1, rfl, h2, ?_, ?_, ?_⟩
      · rw [exitCode_bind_of_ret _ _ fs fs1 a t1 hret, whenFlag_true]
      · rw [trace_bind_of_ret _ _ fs fs1 a t1 hret, whenFlag_true]
      · intro ev2 hev2
        have hall := mainAfterBrews_events w f fs ev2
        rw [hret] at hall
        exact hall hev2

theorem do_event_not_ca (c : Client) (req : Request) (r : HTTPResult) :
    ¬ caEvent (.httpDo c req r) := by
  simp [caEvent]

theorem do_event_not_brews (c : Client) (req : Request) (r : HTTPResult) :
    ¬ brewsEvent (.httpDo c req r) := by
  simp [brewsEvent]

/-- C4. For every run with `-gettrash` set, the client that sends the mTLS
request is configured with the fixed proxy URL exactly when `-useproxy` is set,
and with no proxy (a transport without proxy function) exactly when it is unset. -/
theorem mtls_client_proxy_iff_useproxy (w : World) (f : Flags) (c : Client) (req : Request)
    (r : HTTPResult) (_hflag : f.getTrashCan = true)
    (h : Event.httpDo c req r ∈ (run w f).trace) :
    (c.Transport.map Transport.Proxy = some (some proxyUrl) ↔ f.useProxy = true) ∧
      (c.Transport.map Transport.Proxy = some none ↔ f.useProxy = false) := by
  obtain ⟨fs1, t1, _, hmem, _, _, _⟩ :=
    main_of_event w f w.files _ (do_event_not_ca c req r) (do_event_not_brews c req r) h
  obtain ⟨_, cert, hc⟩ := getTrashPath_do w f fs1 c req r hmem
  rcases hc with ⟨hp, ca, hc⟩ | ⟨hp, hc⟩
  · subst hc
    simp [hp, proxiedTrashClient]
  · subst hc
    simp [hp, directTrashClient]

/-- C4 in two runs that send the mTLS request, with and without `-useproxy`. -/
theorem mtls_client_proxy_iff_useproxy_witness :
    ((proxiedTrashClient [45, 45] { certPEM := [67], keyPEM := [75] }).Transport.map
          Transport.Proxy = some (some proxyUrl) ↔ true = true) ∧
      ((directTrashClient { certPEM := [67], keyPEM := [75] }).Transport.map
          Transport.Proxy = some none ↔ false = false) :=
  ⟨(mtls_client_proxy_iff_useproxy
      (sampleWorld sampleFiles refused refused refused (okReply [104, 105]))
      { getTrashCan := true, useProxy := true }
      (proxiedTrashClient [45, 45] { certPEM := [67], keyPEM := [75] }) mtlsRequest
      (okReply [104, 105]) rfl (by decide)).1,
   (mtls_client_proxy_iff_useproxy
      (sampleWorld sampleFiles refused refused refused (okReply [104, 105]))
      { getTrashCan := true }
      (directTrashClient { certPEM := [67], keyPEM := [75] }) mtlsRequest
      (okReply [104, 105]) rfl (by decide)).2⟩

/-- C6. For every combination of flag values, the client that the mTLS path
builds and sends its request with has server certificate verification
disabled, on the proxied and on the direct branch alike. -/
theorem mtls_client_skips_verification (w : World) (f : Flags) (c : Client) (req : Request)
    (r : HTTPResult) (h : Event.httpDo c req r ∈ (run w f).trace) :
    ∃ t cfg, c.Transport = some t ∧ t.TLSClientConfig = some cfg ∧
      cfg.InsecureSkipVerify = true := by
  obtain ⟨fs1, t1, _, hmem, _, _, _⟩ :=
    main_of_event w f w.files _ (do_event_not_ca c req r) (do_event_not_brews c req r) h
  obtain ⟨_, cert, hc⟩ := getTrashPath_do w f fs1 c req r hmem
  rcases hc with ⟨_, ca, hc⟩ | ⟨_, hc⟩
  · subst hc
    exact ⟨_, _, rfl, rfl, rfl⟩
  · subst hc
    exact ⟨_, _, rfl, rfl, rfl⟩

/-- C6 in a run with `-useproxy` and `-nocerts` set. -/
theorem mtls_client_skips_verification_witness :
    Event.httpDo (proxiedTrashClient [45, 45] { certPEM := [67], keyPEM := [75] }) mtlsRequest
        refused ∈
        (run (sampleWorld sampleFiles refused refused refused refused)
          { getTrashCan := true, useProxy := true, mtlsFalse := true }).trace ∧
      ∃ t cfg,
        (proxiedTrashClient [45, 45] { certPEM := [67], keyPEM := [75] }).Transport = some t ∧
          t.TLSClientConfig = some cfg ∧ cfg.InsecureSkipVerify = true :=
  ⟨by decide,
   mtls_client_skips_verification (sampleWorld sampleFiles refused refused refused refused)
    { getTrashCan := true, useProxy := true, mtlsFalse := true }
    (proxiedTrashClient [45, 45] { certPEM := [67], keyPEM := [75] }) mtlsRequest refused
    (by decide)⟩

theorem load_event_not_ca (cf kf : String) (oe : Option Err) :
    ¬ caEvent (.loadKeyPair cf kf oe) := by
  simp [caEvent]

theorem load_event_not_brews (cf kf : String) (oe : Option Err) :
    ¬ brewsEvent (.loadKeyPair cf kf oe) := by
  simp [brewsEvent]

/-- C5. For every run with `-gettrash` set, if loading the certificate/key pair
named by `-cert` and `-key` fails, the process ends with status 1 (so a non-zero
status) and no request is sent by the mTLS path nor to the mTLS endpoint. -/
theorem keypair_failure_is_fatal (w : World) (f : Flags) (e : Err)
    (_hflag : f.getTrashCan = true)
    (h : Event.loadKeyPair f.mtlsClientCert f.mtlsClientKey (some e) ∈ (run w f).trace) :
    (run w f).exitCode = some 1 ∧ exitStatus (run w f) ≠ 0 ∧
      (∀ c req r, Event.httpDo c req r ∉ (run w f).trace) ∧
      ∀ c r, Event.httpGet c mtlsUrl r ∉ (run w f).trace := by
  obtain ⟨fs1, t1, _, hmem, hcode, htrace, hpre⟩ :=
    main_of_event w f w.files _ (load_event_not_ca _ _ _) (load_event_not_brews _ _ _) h
  obtain ⟨hexit, hshape⟩ := getTrashPath_load_failure w f fs1 _ _ e hmem
  have hcode2 : (run w f).exitCode = some 1 := hcode.trans hexit
  have hm1 : mtlsUrl ≠ caUrl := by decide
  have hm2 : mtlsUrl ≠ ipUrl := by decide
  have hm3 : mtlsUrl ≠ brewurl "san_diego" := by decide
  refine ⟨hcode2, ?_, ?_, ?_⟩
  · simp [exitStatus, hcode2]
  · intro c req r hdo
    have hdo2 : Event.httpDo c req r ∈ t1 ++ (getTrashPath w f fs1).trace := htrace ▸ hdo
    rcases List.mem_append.1 hdo2 with h1 | h1
    · rcases hpre _ h1 with h2 | h2
      · exact do_event_not_ca c req r h2
      · exact do_event_not_brews c req r h2
    · rcases hshape _ h1 with h2 | ⟨m, h2⟩
      · simp [loadEvent] at h2
      · cases h2
  · intro c r hget
    have hget2 : Event.httpGet c mtlsUrl r ∈ t1 ++ (getTrashPath w f fs1).trace := htrace ▸ hget
    rcases List.mem_append.1 hget2 with h1 | h1
    · rcases hpre _ h1 with h2 | h2
      · simp only [caEvent] at h2
        exact hm1 h2
      · simp only [brewsEvent] at h2
        rcases h2 with h2 | h2
        · exact hm2 h2
        · exact hm3 h2
    · rcases hshape _ h1 with h2 | ⟨m, h2⟩
      · simp [loadEvent] at h2
      · cases h2

/-- C5 in a world without the certificate file. -/
theorem keypair_failure_is_fatal_witness :
    Event.loadKeyPair "client.pem" "client-key.pem" (some "no such file or directory") ∈
        (run (sampleWorld noFiles refused refused refused (okReply [104, 105]))
          { getTrashCan := true }).trace ∧
      (run (sampleWorld noFiles refused refused refused (okReply [104, 105]))
          { getTrashCan := true }).exitCode = some 1 :=
  ⟨by decide,
   (keypair_failure_is_fatal (sampleWorld noFiles refused refused refused (okReply [104, 105]))
    { getTrashCan := true } "no such file or directory" rfl (by decide)).1⟩

/-- C2, at a failing input: `-gettrash` and `-nocerts` are set and the key pair
loads.  The request is sent by a client whose TLS configuration carries the
loaded certificate; and for every world and every flags the run is the same
whether `-nocerts` is set or not. -/
theorem nocerts_flag_ignored :
    (run (sampleWorld sampleFiles refused refused refused (okReply [104, 105]))
        { getTrashCan := true, mtlsFalse := true }).trace =
      [.readFile "client.pem" (.ok [67]),
       .readFile "client-key.pem" (.ok [75]),
       .loadKeyPair "client.pem" "client-key.pem" none,
       .stdout "Connecting to Trashcan without Proxy\n",
       .httpDo
         { Transport := some
             { TLSClientConfig := some
                 { RootCAs := none,
                   Certificates := [{ certPEM := [67], keyPEM := [75] }],
                   InsecureSkipVerify := true },
               Proxy := none } }
         mtlsRequest (okReply [104, 105]),
       .stdoutBytes [104, 105, 10]] ∧
    ∀ (w : World) (f : Flags) (b : Bool), run w { f with mtlsFalse := b } = run w f :=
  ⟨rfl, fun _ _ _ => rfl⟩

end HttpClient
